import Mathlib

set_option autoImplicit false

/-!
A shallow embedding of the scheduling engine in
`CurriculumScheduler/models/scheduler.py` (class `ClassScheduler`), together
with proofs about it.

Modelling conventions:
* Times of day (`"HH:MM"` strings in the source, parsed with
  `datetime.strptime`) are represented as minutes after midnight (`Nat`).
  Parsing, formatting and comparison of well-formed `"HH:MM"` strings
  correspond exactly to arithmetic and ordering on minutes.
* Durations (`hours`, possibly halved into `hours / 2` float sessions in the
  source) are represented in minutes, so `session_hours = hours / 2` becomes
  `30 * hours` minutes.
* Python `dict`s (insertion ordered) are represented as association lists with
  in-place update (`dictSet`), first-match lookup (`dictFind`) and key removal
  (`dictDel`).
* The scheduler mutates `schedule_list`, three occupancy ledgers and
  `self.day_pairing_counter` in place; we thread an explicit `SchedState`.
-/

namespace Sched

/-- The six operating days (`self.days` in `ClassScheduler.__init__`). -/
inductive Day where
  | monday
  | tuesday
  | wednesday
  | thursday
  | friday
  | saturday
deriving DecidableEq, Repr

/-- `self.days = ['Monday', ..., 'Saturday']`. -/
def days : List Day :=
  [.monday, .tuesday, .wednesday, .thursday, .friday, .saturday]

/-- A time of day in minutes after midnight (the source uses `"HH:MM"` strings). -/
abbrev Time := Nat

/-- `_add_hours_to_time`: `datetime` addition wraps around midnight, hence mod 1440.
The duration argument is in minutes (never `None` here because every caller passes a
well-formed grid time, so `strptime` cannot fail). -/
def addMinutesToTime (t : Time) (minutes : Nat) : Time :=
  (t + minutes) % 1440

/-- `_generate_time_slots`: hours 7..20, minutes 0 and 30; the guard
`hour < end_hour or (hour == end_hour and minute == 0)` is always true because
`hour` ranges over `range(7, 21)`.  This yields the 28 slots 07:00 .. 20:30. -/
def generateTimeSlots : List Time :=
  (List.range' 7 14).flatMap (fun hour => [0, 30].map (fun minute => 60 * hour + minute))

/-- `self.time_slots`. -/
def timeSlots : List Time := generateTimeSlots

/-- One bookable session (a dict `{'day', 'start_time', 'end_time', 'duration'}` in
the source); `duration` is kept in minutes. -/
structure Session where
  day : Day
  start_time : Time
  end_time : Time
  duration : Nat
deriving DecidableEq, Repr

/-- A pattern is a list of one or two sessions. -/
abbrev Pattern := List Session

/-- `base_day_pairings` in `_get_time_patterns`. -/
def baseDayPairings : List (Day × Day) :=
  [(.monday, .thursday), (.tuesday, .friday), (.wednesday, .saturday)]

/-- `rotation = self.day_pairing_counter % 3;
day_pairings = base_day_pairings[rotation:] + base_day_pairings[:rotation]`. -/
def rotatedDayPairings (counter : Nat) : List (Day × Day) :=
  let rotation := counter % 3
  baseDayPairings.drop rotation ++ baseDayPairings.take rotation

/-- Component type strings `'Lecture'` / `'Lab'` / `'Both'` used for
`component_type` and the `course_type` column of schedule entries. -/
inductive ComponentType where
  | Lecture
  | Lab
  | Both
deriving DecidableEq, Repr

/-- `should_split = (component_type == 'Lab' and hours >= 2) or (hours > 2 and hours <= 4)`. -/
def shouldSplit (hours : Nat) (component_type : ComponentType) : Prop :=
  (component_type = ComponentType.Lab ∧ 2 ≤ hours) ∨ (2 < hours ∧ hours ≤ 4)

instance (hours : Nat) (component_type : ComponentType) :
    Decidable (shouldSplit hours component_type) := by
  unfold shouldSplit
  exact inferInstance

/-- The single-session branch of `_get_time_patterns`: one candidate per day and
per start time drawn from `self.time_slots[:-4]` (the first 24 slots) whose end
time lands back on the slot grid. -/
def singleSessionPatterns (hours : Nat) : List Pattern :=
  days.flatMap (fun day =>
    (timeSlots.take 24).filterMap (fun start_time =>
      let end_time := addMinutesToTime start_time (60 * hours)
      if end_time ∈ timeSlots then
        some [{ day := day, start_time := start_time, end_time := end_time,
                duration := 60 * hours }]
      else none))

/-- The two-session branches of `_get_time_patterns`: for each rotated day pair
and each start time drawn from a prefix of the slot grid, a pattern of two equal
sessions (same start and end time on both days) whenever the end time lands on
the grid.  `takeCount` is the length of the Python slice of `self.time_slots`
and `sessionMinutes` the per-session duration in minutes. -/
def twoSessionPatterns (day_pairings : List (Day × Day)) (takeCount : Nat)
    (sessionMinutes : Nat) : List Pattern :=
  day_pairings.flatMap (fun dp =>
    (timeSlots.take takeCount).filterMap (fun start_time =>
      let end_time := addMinutesToTime start_time sessionMinutes
      if end_time ∈ timeSlots then
        some [{ day := dp.1, start_time := start_time, end_time := end_time,
                duration := sessionMinutes },
              { day := dp.2, start_time := start_time, end_time := end_time,
                duration := sessionMinutes }]
      else none))

/-- `_get_time_patterns(hours, component_type)`; `counter` is
`self.day_pairing_counter` read at call time.  In the split branches
`session_hours = hours / 2` (so `30 * hours` minutes) and
`slots_needed = int(session_hours * 2) = hours`; the slice
`self.time_slots[:-slots_needed if slots_needed > 0 else -1]` keeps the first
`28 - hours` slots (or 27 slots when `hours = 0`). -/
def getTimePatterns (hours : Nat) (component_type : ComponentType) (counter : Nat) :
    List Pattern :=
  let day_pairings := rotatedDayPairings counter
  if hours ≤ 2 ∧ ¬ shouldSplit hours component_type then
    singleSessionPatterns hours
  else if hours = 2 ∧ component_type = ComponentType.Lab then
    twoSessionPatterns day_pairings 26 60
  else if hours ≤ 4 then
    twoSessionPatterns day_pairings (if 0 < hours then 28 - hours else 27) (30 * hours)
  else
    twoSessionPatterns day_pairings (if 0 < hours then 28 - hours else 27) (30 * hours)

/-- `_times_overlap(start1, end1, start2, end2)`:
`not (end1 <= start2 or end2 <= start1)`.  The `except` branch (malformed time
strings) is unreachable for grid times and is not modelled. -/
def timesOverlap (start1 end1 start2 end2 : Time) : Bool :=
  !(decide (end1 ≤ start2) || decide (end2 ≤ start1))

/-! ### Python dictionaries as association lists -/

/-- First-match lookup, `d[k]` / `k in d`. -/
def dictFind {α β : Type} [DecidableEq α] : List (α × β) → α → Option β
  | [], _ => none
  | (k', v) :: rest, k => if k' = k then some v else dictFind rest k

/-- `d[k] = v`: replace in place if the key exists, else append at the end
(Python dicts preserve insertion order). -/
def dictSet {α β : Type} [DecidableEq α] : List (α × β) → α → β → List (α × β)
  | [], k, v => [(k, v)]
  | (k', v') :: rest, k, v =>
      if k' = k then (k, v) :: rest else (k', v') :: dictSet rest k v

/-- `del d[k]`: remove the (unique) entry for `k`, if present. -/
def dictDel {α β : Type} [DecidableEq α] : List (α × β) → α → List (α × β)
  | [], _ => []
  | (k', v') :: rest, k =>
      if k' = k then rest else (k', v') :: dictDel rest k

/-! ### A stable sort

Python's `list.sort` / `sorted` are stable.  Any stable sort with the same
ordering predicate produces the identical output list, so we model them with a
structurally recursive stable insertion sort (which also computes inside the
kernel, unlike `List.mergeSort`). -/

/-- Insert into a sorted list, before the first element it does not follow. -/
def insertSorted {α : Type} (le : α → α → Bool) (x : α) : List α → List α
  | [] => [x]
  | y :: ys => if le x y then x :: y :: ys else y :: insertSorted le x ys

/-- Stable insertion sort: equal elements keep their input order. -/
def stableSortBy {α : Type} (le : α → α → Bool) : List α → List α
  | [] => []
  | x :: rest => insertSorted le x (stableSortBy le rest)

/-! ### Occupancy ledgers -/

/-- The `session_info` dict recorded into the three ledgers:
`{'start_time', 'end_time', 'course', 'section'}` (the last field is named
`sectionName` because `section` is a Lean keyword). -/
structure SessionInfo where
  start_time : Time
  end_time : Time
  course : String
  sectionName : String
deriving DecidableEq, Repr

/-- A per-resource day map: `day -> list of booked session_info`. -/
abbrev DaySchedule := List (Day × List SessionInfo)

/-- An occupancy ledger: `resource name -> day -> list of booked session_info`
(`faculty_schedule`, `room_schedule`, `section_schedule` in the source). -/
abbrev Ledger := List (String × DaySchedule)

/-- The sessions booked under `name` on `day`: `ledger[name][day]`, taken as `[]`
when `day` is absent.  The drivers initialise every resource name before use, so
the missing-name case (a `KeyError` in the source) is unreachable; we default it
to `[]` as well. -/
def ledgerSessions (ledger : Ledger) (name : String) (day : Day) : List SessionInfo :=
  (dictFind ((dictFind ledger name).getD []) day).getD []

/-- `if day not in ledger[name]: ledger[name][day] = []` followed by
`ledger[name][day].append(si)`.  As above, `name` is always present in reachable
states; for an absent name we insert it. -/
def ledgerAppend (ledger : Ledger) (name : String) (day : Day) (si : SessionInfo) :
    Ledger :=
  let ds := (dictFind ledger name).getD []
  let sessions := (dictFind ds day).getD []
  dictSet ledger name (dictSet ds day (sessions ++ [si]))

/-- One ledger check inside `_can_assign_pattern`: does any existing session on
this resource and day overlap the candidate interval? -/
def sessionConflictsWith (existing : List SessionInfo) (start_time end_time : Time) :
    Bool :=
  existing.any (fun ex => timesOverlap start_time end_time ex.start_time ex.end_time)

/-- `_can_assign_pattern(pattern, faculty_name, room_name, section_name, ...)`. -/
def canAssignPattern (pattern : Pattern) (faculty_name room_name section_name : String)
    (faculty_schedule room_schedule section_schedule : Ledger)
    (allow_conflicts : Bool) : Bool :=
  if allow_conflicts then
    true
  else
    pattern.all (fun s =>
      !sessionConflictsWith (ledgerSessions faculty_schedule faculty_name s.day)
          s.start_time s.end_time &&
      !sessionConflictsWith (ledgerSessions room_schedule room_name s.day)
          s.start_time s.end_time &&
      !sessionConflictsWith (ledgerSessions section_schedule section_name s.day)
          s.start_time s.end_time)

/-! ### Input tables -/

/-- The `course_type` column; the source tests it with
`'lab' in course_type.lower()`, `'lecture' in course_type.lower()` and
`course_type.lower() == 'both'`. -/
inductive CourseType where
  | Lecture
  | Lab
  | Both
deriving DecidableEq, Repr

/-- `'lab' in course_type.lower()` (false for `'lecture'` and `'both'`). -/
def courseTypeContainsLab : CourseType → Bool
  | .Lab => true
  | _ => false

/-- `'lecture' in course_type.lower()` (false for `'lab'` and `'both'`). -/
def courseTypeContainsLecture : CourseType → Bool
  | .Lecture => true
  | _ => false

/-- The `room_type` column, compared against `'Lecture'` / `'Lab'`. -/
inductive RoomType where
  | Lecture
  | Lab
deriving DecidableEq, Repr

/-- A row of the courses table. -/
structure Course where
  course_code : String
  course_title : String
  program : String
  year_level : Nat
  term : Nat
  course_type : CourseType
  units : Nat
  hours_per_week : Nat
deriving DecidableEq, Repr

/-- A row of the rooms table. -/
structure Room where
  room_name : String
  room_type : RoomType
  capacity : Nat
deriving DecidableEq, Repr

/-- A row of the faculty table. -/
structure FacultyMember where
  faculty_name : String
deriving DecidableEq, Repr

/-- A row of the sections table. -/
structure SectionRow where
  section_name : String
  program : String
  year_level : Nat
  term : Nat
  students_count : Nat
deriving DecidableEq, Repr

/-- The output record appended to `schedule_list` (field `sectionName` stands
for the `'section'` column, a Lean keyword). -/
structure ScheduleEntry where
  course_code : String
  course_title : String
  program : String
  year_level : Nat
  term : Nat
  sectionName : String
  day : Day
  start_time : Time
  end_time : Time
  room : String
  faculty : String
  course_type : ComponentType
  students_count : Nat
deriving DecidableEq, Repr

/-! ### Mutable scheduler state -/

/-- The state mutated by a scheduling run: the flat output list, the three
occupancy ledgers, and `self.day_pairing_counter` (an instance attribute of
`ClassScheduler`, initialised once in `__init__` and never reset per call). -/
structure SchedState where
  schedule : List ScheduleEntry
  faculty_schedule : Ledger
  room_schedule : Ledger
  section_schedule : Ledger
  day_pairing_counter : Nat
deriving DecidableEq, Repr

/-- The `schedule_entry` dict built in `_make_assignment`. -/
def mkScheduleEntry (course : Course) (sec : SectionRow) (s : Session)
    (room_name faculty_name : String) (component_type : ComponentType) :
    ScheduleEntry :=
  { course_code := course.course_code
    course_title := course.course_title
    program := sec.program
    year_level := sec.year_level
    term := sec.term
    sectionName := sec.section_name
    day := s.day
    start_time := s.start_time
    end_time := s.end_time
    room := room_name
    faculty := faculty_name
    course_type := component_type
    students_count := sec.students_count }

/-- The `session_info` dict built in `_make_assignment`. -/
def mkSessionInfo (course : Course) (sec : SectionRow) (s : Session) : SessionInfo :=
  { start_time := s.start_time
    end_time := s.end_time
    course := course.course_code
    sectionName := sec.section_name }

/-- The per-session body of the loop in `_make_assignment`: append the schedule
entry and book the session in all three ledgers. -/
def recordSession (course : Course) (sec : SectionRow)
    (faculty_name room_name : String) (component_type : ComponentType)
    (st : SchedState) (s : Session) : SchedState :=
  let si := mkSessionInfo course sec s
  { st with
    schedule := st.schedule ++
      [mkScheduleEntry course sec s room_name faculty_name component_type]
    faculty_schedule := ledgerAppend st.faculty_schedule faculty_name s.day si
    room_schedule := ledgerAppend st.room_schedule room_name s.day si
    section_schedule := ledgerAppend st.section_schedule sec.section_name s.day si }

/-- `_make_assignment`: record every session of the pattern, then increment
`self.day_pairing_counter` (unconditionally). -/
def makeAssignment (pattern : Pattern) (course : Course) (sec : SectionRow)
    (faculty_name room_name : String) (component_type : ComponentType)
    (st : SchedState) : SchedState :=
  let st1 := pattern.foldl
    (recordSession course sec faculty_name room_name component_type) st
  { st1 with day_pairing_counter := st1.day_pairing_counter + 1 }

/-! ### Greedy assigner -/

/-- `_find_suitable_faculty`: returns all faculty (a pass-through hook). -/
def findSuitableFaculty (faculty : List FacultyMember) (_course : Course) :
    List FacultyMember :=
  faculty

/-- The triple loop of `_schedule_course_component`: the first
`(pattern, faculty, room)` combination (in enumeration order) accepted by
`_can_assign_pattern`, if any.  The search itself does not mutate state. -/
def findAssignmentOption (time_patterns : List Pattern)
    (suitable_faculty : List FacultyMember) (suitable_rooms : List Room)
    (section_name : String) (st : SchedState) (allow_conflicts : Bool) :
    Option (Pattern × String × String) :=
  time_patterns.findSome? (fun pattern =>
    suitable_faculty.findSome? (fun f =>
      suitable_rooms.findSome? (fun r =>
        if canAssignPattern pattern f.faculty_name r.room_name section_name
            st.faculty_schedule st.room_schedule st.section_schedule allow_conflicts
        then some (pattern, f.faculty_name, r.room_name)
        else none)))

/-- `_schedule_course_component`: compute the patterns from the current
rotation counter, then take the first acceptable combination and record it. -/
def scheduleCourseComponent (course : Course) (sec : SectionRow)
    (component_type : ComponentType) (hours : Nat)
    (suitable_faculty : List FacultyMember) (suitable_rooms : List Room)
    (allow_conflicts : Bool) (st : SchedState) : Bool × SchedState :=
  let time_patterns := getTimePatterns hours component_type st.day_pairing_counter
  match findAssignmentOption time_patterns suitable_faculty suitable_rooms
      sec.section_name st allow_conflicts with
  | some (pattern, faculty_name, room_name) =>
      (true, makeAssignment pattern course sec faculty_name room_name component_type st)
  | none => (false, st)

/-- `_schedule_lecture_lab_course`: split `hours_per_week` into lecture and lab
halves and place the two components independently. -/
def scheduleLectureLabCourse (course : Course) (sec : SectionRow)
    (suitable_faculty : List FacultyMember) (rooms : List Room)
    (allow_conflicts : Bool) (st : SchedState) : Bool × SchedState :=
  let lecture_hours := course.hours_per_week / 2
  let lab_hours := course.hours_per_week - lecture_hours
  let lecture_rooms := rooms.filter (fun r => r.room_type = RoomType.Lecture)
  let res1 := scheduleCourseComponent course sec ComponentType.Lecture lecture_hours
    suitable_faculty lecture_rooms allow_conflicts st
  if !res1.1 && !allow_conflicts then
    (false, res1.2)
  else
    let lab_rooms := rooms.filter (fun r => r.room_type = RoomType.Lab)
    let res2 := scheduleCourseComponent course sec ComponentType.Lab lab_hours
      suitable_faculty lab_rooms allow_conflicts res1.2
    (res1.1 && res2.1, res2.2)

/-- `_schedule_single_type_course`. -/
def scheduleSingleTypeCourse (course : Course) (sec : SectionRow)
    (suitable_faculty : List FacultyMember) (suitable_rooms : List Room)
    (allow_conflicts : Bool) (st : SchedState) : Bool × SchedState :=
  let component_type :=
    if courseTypeContainsLecture course.course_type then ComponentType.Lecture
    else ComponentType.Lab
  scheduleCourseComponent course sec component_type course.hours_per_week
    suitable_faculty suitable_rooms allow_conflicts st

/-- `_assign_course_to_section`. -/
def assignCourseToSection (course : Course) (sec : SectionRow)
    (faculty : List FacultyMember) (rooms : List Room)
    (allow_conflicts : Bool) (st : SchedState) : Bool × SchedState :=
  let required_room_type :=
    if courseTypeContainsLab course.course_type then RoomType.Lab
    else RoomType.Lecture
  let suitable_faculty := findSuitableFaculty faculty course
  if suitable_faculty.isEmpty then
    (false, st)
  else
    let suitable_rooms := rooms.filter (fun r => r.room_type = required_room_type)
    if suitable_rooms.isEmpty then
      (false, st)
    else if course.course_type = CourseType.Both then
      scheduleLectureLabCourse course sec suitable_faculty rooms allow_conflicts st
    else
      scheduleSingleTypeCourse course sec suitable_faculty suitable_rooms
        allow_conflicts st

/-- The courses matching a section's program / year level / term. -/
def sectionCourses (courses : List Course) (sec : SectionRow) : List Course :=
  courses.filter (fun c =>
    c.program = sec.program ∧ c.year_level = sec.year_level ∧ c.term = sec.term)

/-- `faculty_schedule[name] = {}` initialisation (and likewise for rooms). -/
def initLedger (names : List String) : Ledger :=
  names.map (fun n => (n, []))

/-- A greedy run returns the final state together with the list of
`(course_code, section_name)` pairs for which the warning
`"Warning: Could not schedule ..."` was printed. -/
structure GreedyResult where
  state : SchedState
  warnings : List (String × String)
deriving DecidableEq, Repr

/-- The per-section body of `_greedy_scheduling`: reset
`section_schedule[section_name] = {}`, then try to assign each matching course,
recording a warning when an assignment fails with conflicts disallowed. -/
def greedyScheduleSection (courses : List Course) (faculty : List FacultyMember)
    (rooms : List Room) (allow_conflicts : Bool)
    (acc : SchedState × List (String × String)) (sec : SectionRow) :
    SchedState × List (String × String) :=
  let st0 := { acc.1 with
    section_schedule := dictSet acc.1.section_schedule sec.section_name [] }
  (sectionCourses courses sec).foldl
    (fun a course =>
      let res := assignCourseToSection course sec faculty rooms allow_conflicts a.1
      let warnings :=
        if !res.1 && !allow_conflicts then
          a.2 ++ [(course.course_code, sec.section_name)]
        else a.2
      (res.2, warnings))
    (st0, acc.2)

/-- `_greedy_scheduling(courses_to_schedule, allow_conflicts)`: fresh ledgers
and output list, but the rotation counter is the scheduler attribute
`self.day_pairing_counter`, passed in as `counter`. -/
def greedyScheduling (courses : List Course) (rooms : List Room)
    (faculty : List FacultyMember) (sections : List SectionRow)
    (allow_conflicts : Bool) (counter : Nat) : GreedyResult :=
  let st0 : SchedState :=
    { schedule := []
      faculty_schedule := initLedger (faculty.map (fun f => f.faculty_name))
      room_schedule := initLedger (rooms.map (fun r => r.room_name))
      section_schedule := []
      day_pairing_counter := counter }
  let res := sections.foldl (greedyScheduleSection courses faculty rooms allow_conflicts)
    (st0, [])
  { state := res.1, warnings := res.2 }

/-! ### Backtracking assigner -/

/-- A `(pattern, faculty, room)` option produced by `_get_possible_assignments`
(the mutable `assignment_data` field is threaded separately). -/
structure AssignmentOption where
  pattern : Pattern
  faculty : String
  room : String
deriving DecidableEq, Repr

/-- `_calculate_constraint_complexity`. -/
def calculateConstraintComplexity (course : Course) : Nat :=
  let c1 :=
    if courseTypeContainsLab course.course_type ∨ course.course_type = CourseType.Both
    then 10 else 0
  let c2 := course.hours_per_week
  let c3 := if course.course_type = CourseType.Both then 5 else 0
  c1 + c2 + c3

/-- `_assignment_preference`: the start hour (`int(start_time.split(':')[0])`,
i.e. minutes divided by 60) of the first session, plus 20 if any session is on
Saturday; lower is preferred. -/
def assignmentPreference (opt : AssignmentOption) : Nat :=
  let p1 := match opt.pattern.head? with
    | some s => s.start_time / 60
    | none => 0
  let p2 :=
    if opt.pattern ≠ [] ∧ opt.pattern.any (fun s => s.day = Day.saturday)
    then 20 else 0
  p1 + p2

/-- `_get_possible_assignments`: note that the pattern generator is called with
the default `component_type='Lecture'` and the full `hours_per_week`, and that
the required room type for `'Both'` courses is `'Lecture'` (since
`'lab' not in 'both'`) — the backtracking path never splits a `'Both'` course. -/
def getPossibleAssignments (course : Course) (sec : SectionRow)
    (faculty : List FacultyMember) (rooms : List Room) (st : SchedState)
    (allow_conflicts : Bool) : List AssignmentOption :=
  let required_room_type :=
    if courseTypeContainsLab course.course_type then RoomType.Lab
    else RoomType.Lecture
  let suitable_rooms := rooms.filter (fun r => r.room_type = required_room_type)
  let suitable_faculty := findSuitableFaculty faculty course
  let time_patterns :=
    getTimePatterns course.hours_per_week ComponentType.Lecture st.day_pairing_counter
  let opts := time_patterns.flatMap (fun pattern =>
    suitable_faculty.flatMap (fun f =>
      suitable_rooms.filterMap (fun r =>
        if allow_conflicts || canAssignPattern pattern f.faculty_name r.room_name
            sec.section_name st.faculty_schedule st.room_schedule st.section_schedule
            allow_conflicts
        then some { pattern := pattern, faculty := f.faculty_name, room := r.room_name }
        else none)))
  stableSortBy (fun a b => assignmentPreference a ≤ assignmentPreference b) opts

/-- The component type tag computed in `_make_assignment_backtrack` (and in
`_convert_csp_solution_to_schedule`): `'Both'` courses are tagged `'Both'`. -/
def backtrackComponentType (course : Course) : ComponentType :=
  let ct :=
    if courseTypeContainsLecture course.course_type then ComponentType.Lecture
    else ComponentType.Lab
  if course.course_type = CourseType.Both then ComponentType.Both else ct

/-- `_make_assignment_backtrack`: record each session (same per-session body as
`_make_assignment`), collect `assignment_data` (the index of each appended
schedule entry), and increment the rotation counter. -/
def makeAssignmentBacktrack (opt : AssignmentOption) (course : Course)
    (sec : SectionRow) (st : SchedState) : SchedState × List Nat :=
  let component_type := backtrackComponentType course
  let res := opt.pattern.foldl
    (fun (a : SchedState × List Nat) s =>
      let st2 := recordSession course sec opt.faculty opt.room component_type a.1 s
      (st2, a.2 ++ [st2.schedule.length - 1]))
    (st, [])
  ({ res.1 with day_pairing_counter := res.1.day_pairing_counter + 1 }, res.2)

/-- `schedule_list.pop(idx)` guarded by `idx < len(schedule_list)`. -/
def popAt {α : Type} (l : List α) (idx : Nat) : List α :=
  if idx < l.length then l.take idx ++ l.drop (idx + 1) else l

/-- One ledger-day removal step of `_undo_assignment_backtrack`: if the day is
booked, keep only the sessions satisfying `keep`, deleting the day key when the
remaining list is empty. -/
def undoFilterDay (ds : DaySchedule) (day : Day) (keep : SessionInfo → Bool) :
    DaySchedule :=
  match dictFind ds day with
  | none => ds
  | some sessions =>
      let remaining := sessions.filter keep
      if remaining.isEmpty then dictDel ds day else dictSet ds day remaining

/-- The same removal lifted to a ledger; a missing resource name would be a
`KeyError` in the source and is unreachable (names are initialised up front). -/
def undoLedgerDay (ledger : Ledger) (name : String) (day : Day)
    (keep : SessionInfo → Bool) : Ledger :=
  match dictFind ledger name with
  | none => ledger
  | some ds => dictSet ledger name (undoFilterDay ds day keep)

/-- `_undo_assignment_backtrack`: pop the recorded schedule indices in reverse
order, filter the matching sessions out of the three ledgers for each pattern
day, and decrement the rotation counter.  `assignment_data` is the index list
stored by `_make_assignment_backtrack` (the `'assignment_data' not in
assignment_option` early return cannot fire after a record). -/
def undoAssignmentBacktrack (opt : AssignmentOption) (course : Course)
    (sec : SectionRow) (assignment_data : List Nat) (st : SchedState) : SchedState :=
  let keepFacultyRoom := fun (si : SessionInfo) =>
    !(decide (si.course = course.course_code) &&
      decide (si.sectionName = sec.section_name))
  let keepSection := fun (si : SessionInfo) => !(decide (si.course = course.course_code))
  let schedule := assignment_data.reverse.foldl popAt st.schedule
  let st1 := opt.pattern.foldl
    (fun a s =>
      { a with
        faculty_schedule := undoLedgerDay a.faculty_schedule opt.faculty s.day
          keepFacultyRoom
        room_schedule := undoLedgerDay a.room_schedule opt.room s.day keepFacultyRoom
        section_schedule := undoLedgerDay a.section_schedule sec.section_name s.day
          keepSection })
    { st with schedule := schedule }
  { st1 with day_pairing_counter := st1.day_pairing_counter - 1 }

/-- The `for assignment_option in possible_assignments` loop of
`_backtrack_assign`: record, recurse (via `recurse`, the search continuation
for the remaining obligations), and undo on failure. -/
def tryAssignmentOptions (recurse : SchedState → Bool × SchedState)
    (course : Course) (sec : SectionRow) :
    List AssignmentOption → SchedState → Bool × SchedState
  | [], st => (false, st)
  | opt :: more, st =>
      let recd := makeAssignmentBacktrack opt course sec st
      let res := recurse recd.1
      if res.1 then (true, res.2)
      else
        tryAssignmentOptions recurse course sec more
          (undoAssignmentBacktrack opt course sec recd.2 res.2)

/-- `_backtrack_assign(assignments, index, ...)` viewed as structural recursion
on the suffix of obligations from `index` on. -/
def backtrackAssign (faculty : List FacultyMember) (rooms : List Room)
    (max_iterations : Nat) (allow_conflicts : Bool) :
    List (Course × SectionRow) → SchedState → Bool × SchedState
  | [], st => (true, st)
  | ob :: rest, st =>
      if max_iterations < st.schedule.length then (false, st)
      else
        let options := getPossibleAssignments ob.1 ob.2 faculty rooms st allow_conflicts
        tryAssignmentOptions
          (backtrackAssign faculty rooms max_iterations allow_conflicts rest)
          ob.1 ob.2 options st

/-- The flat obligation list collected by `_backtracking_scheduling` (courses of
each section, in input order), together with the
`section_schedule[section_name] = {}` initialisation that happens during
collection. -/
def buildAssignments (courses : List Course) (sections : List SectionRow) :
    List (Course × SectionRow) :=
  sections.flatMap (fun sec => (sectionCourses courses sec).map (fun c => (c, sec)))

/-- Result of `_backtracking_scheduling`: the final state (whose `schedule` is
the returned list and whose counter is `self.day_pairing_counter` after the
call), whether the greedy-with-conflicts fallback ran, and its warnings. -/
structure BacktrackResult where
  usedFallback : Bool
  state : SchedState
  warnings : List (String × String)
deriving DecidableEq, Repr

/-- `_backtracking_scheduling(courses_to_schedule, max_iterations, allow_conflicts)`. -/
def backtrackingScheduling (courses : List Course) (rooms : List Room)
    (faculty : List FacultyMember) (sections : List SectionRow)
    (max_iterations : Nat) (allow_conflicts : Bool) (counter : Nat) :
    BacktrackResult :=
  let st0 : SchedState :=
    { schedule := []
      faculty_schedule := initLedger (faculty.map (fun f => f.faculty_name))
      room_schedule := initLedger (rooms.map (fun r => r.room_name))
      section_schedule :=
        sections.foldl (fun L sec => dictSet L sec.section_name []) []
      day_pairing_counter := counter }
  let assignments := buildAssignments courses sections
  let sorted := stableSortBy (fun a b =>
    calculateConstraintComplexity b.1 ≤ calculateConstraintComplexity a.1) assignments
  let res := backtrackAssign faculty rooms max_iterations allow_conflicts sorted st0
  if res.1 then
    { usedFallback := false, state := res.2, warnings := [] }
  else
    let g := greedyScheduling courses rooms faculty sections true
      res.2.day_pairing_counter
    { usedFallback := true, state := g.state, warnings := g.warnings }

/-! ### CSP solver -/

/-- A CSP domain value (`{'pattern', 'faculty', 'room', 'course', 'section'}`). -/
structure CspValue where
  pattern : Pattern
  faculty : String
  room : String
  course : Course
  sectionRow : SectionRow
deriving DecidableEq, Repr

/-- `_time_patterns_overlap`. -/
def timePatternsOverlap (pattern1 pattern2 : Pattern) : Bool :=
  pattern1.any (fun s1 => pattern2.any (fun s2 =>
    decide (s1.day = s2.day) &&
    timesOverlap s1.start_time s1.end_time s2.start_time s2.end_time))

/-- `_values_satisfy_constraint`: compatible unless the two values share the
same faculty, room, or section name and their patterns overlap. -/
def valuesSatisfyConstraint (value1 value2 : CspValue) : Bool :=
  !(decide (value1.faculty = value2.faculty) &&
    timePatternsOverlap value1.pattern value2.pattern) &&
  !(decide (value1.room = value2.room) &&
    timePatternsOverlap value1.pattern value2.pattern) &&
  !(decide (value1.sectionRow.section_name = value2.sectionRow.section_name) &&
    timePatternsOverlap value1.pattern value2.pattern)

/-- The `domains` dict: variable name to list of candidate values. -/
abbrev Domains := List (String × List CspValue)

/-- `_generate_csp_domain(course_row, section_row)`; `counter` is
`self.day_pairing_counter`, which the CSP path never modifies. -/
def generateCspDomain (course : Course) (sec : SectionRow)
    (faculty : List FacultyMember) (rooms : List Room) (counter : Nat) :
    List CspValue :=
  let required_room_type :=
    if courseTypeContainsLab course.course_type then RoomType.Lab
    else RoomType.Lecture
  let suitable_rooms := rooms.filter (fun r => r.room_type = required_room_type)
  let suitable_faculty := findSuitableFaculty faculty course
  let time_patterns :=
    getTimePatterns course.hours_per_week ComponentType.Lecture counter
  time_patterns.flatMap (fun pattern =>
    suitable_faculty.flatMap (fun f =>
      suitable_rooms.map (fun r =>
        { pattern := pattern, faculty := f.faculty_name, room := r.room_name,
          course := course, sectionRow := sec })))

/-- The variable/domain collection loop of `_constraint_satisfaction_scheduling`:
variable names are `f"{course_code}_{section_name}"`. -/
def cspBuild (courses : List Course) (sections : List SectionRow)
    (faculty : List FacultyMember) (rooms : List Room) (counter : Nat) :
    List String × Domains :=
  sections.foldl
    (fun acc sec =>
      (sectionCourses courses sec).foldl
        (fun acc2 c =>
          let var_name := c.course_code ++ "_" ++ sec.section_name
          (acc2.1 ++ [var_name],
           dictSet acc2.2 var_name (generateCspDomain c sec faculty rooms counter)))
        acc)
    ([], [])

/-- `_generate_csp_constraints`: one `no_conflict` pair per index pair `i < j`
(the dicts `{'var1', 'var2', 'type'}` are modelled as name pairs). -/
def generateCspConstraints : List String → List (String × String)
  | [] => []
  | v :: rest => rest.map (fun w => (v, w)) ++ generateCspConstraints rest

/-- Total number of domain values; the termination measure of AC-3. -/
def domainsTotalSize (domains : Domains) : Nat :=
  (domains.map (fun p => p.2.length)).sum

/-- `dictSet` with a strictly shorter value list strictly shrinks the total
domain size when the key is present. -/
theorem domainsTotalSize_dictSet_lt {domains : Domains} {k : String}
    {v l : List CspValue} (hf : dictFind domains k = some v)
    (hlt : l.length < v.length) :
    domainsTotalSize (dictSet domains k l) < domainsTotalSize domains := by
  induction domains with
  | nil => simp [dictFind] at hf
  | cons p rest ih =>
      obtain ⟨k', v'⟩ := p
      by_cases hk : k' = k
      · subst hk
        simp [dictFind] at hf
        subst hf
        simp [dictSet, domainsTotalSize]
        omega
      · simp [dictFind, hk] at hf
        have := ih hf
        simp [dictSet, hk, domainsTotalSize] at this ⊢
        omega

/-- The arcs re-enqueued after a successful revision (`for constraint in
constraints: ...` in `_apply_arc_consistency`). -/
def neighborArcs (constraints : List (String × String)) (var1 var2 : String) :
    List (String × String) :=
  constraints.filterMap (fun c =>
    if c.1 = var1 ∧ c.2 ≠ var2 then some (c.2, var1)
    else if c.2 = var1 ∧ c.1 ≠ var2 then some (c.1, var1)
    else none)

/-- `_revise_domain` keeps `value1` iff some `value2` in the neighbor's domain
satisfies the constraint. -/
def reviseKeep (d2 : List CspValue) (value1 : CspValue) : Bool :=
  d2.any (fun value2 => valuesSatisfyConstraint value1 value2)

/-- The `while queue` loop of `_apply_arc_consistency` (AC-3).  Returns the
empty dict (the `return {}  # Inconsistent` sentinel) as soon as a revised
domain becomes empty.  All queued variables are present in `domains` in
reachable calls, so the defaulting lookups never mask a `KeyError`. -/
def acThreeLoop (constraints : List (String × String)) :
    List (String × String) → Domains → Domains
  | [], domains => domains
  | (var1, var2) :: rest, domains =>
      let d1 := (dictFind domains var1).getD []
      let d2 := (dictFind domains var2).getD []
      let d1r := d1.filter (reviseKeep d2)
      if h : d1r.length < d1.length then
        if d1r.isEmpty then []
        else acThreeLoop constraints (rest ++ neighborArcs constraints var1 var2)
          (dictSet domains var1 d1r)
      else acThreeLoop constraints rest domains
termination_by queue domains => (domainsTotalSize domains, queue.length)
decreasing_by
  · apply Prod.Lex.left
    have h2 : (((dictFind domains var1).getD []).filter
        (reviseKeep ((dictFind domains var2).getD []))).length <
        ((dictFind domains var1).getD []).length := h
    rcases hf : dictFind domains var1 with _ | v
    · rw [hf] at h2
      simp at h2
    · rw [hf] at h2
      simp only [Option.getD_some] at h2
      simp only [hf, Option.getD_some]
      exact domainsTotalSize_dictSet_lt hf h2
  · apply Prod.Lex.right
    simp

/-- `_apply_arc_consistency(variables, domains, constraints)` (the `variables`
argument is unused in the source as well). -/
def applyArcConsistency (_vars : List String) (domains : Domains)
    (constraints : List (String × String)) : Domains :=
  let queue := constraints.map (fun c => (c.1, c.2)) ++
    constraints.map (fun c => (c.2, c.1))
  acThreeLoop constraints queue domains

/-- `any(not domains[var] for var in variables)`: the generator raises
`KeyError` (modelled as `.error ()`) when a variable is missing from `domains`
— which is exactly what happens after the `{}` inconsistency sentinel. -/
def anyEmptyDomain : List String → Domains → Except Unit Bool
  | [], _ => .ok false
  | v :: rest, domains =>
      match dictFind domains v with
      | none => .error ()
      | some d => if d.isEmpty then .ok true else anyEmptyDomain rest domains

/-- A partial assignment: variable name to chosen value (a Python dict). -/
abbrev CspAssignment := List (String × CspValue)

/-- `_count_conflicts` (LCV key). -/
def countConflicts (value : CspValue) (assignment : CspAssignment) : Nat :=
  (assignment.filter (fun p => !valuesSatisfyConstraint value p.2)).length

/-- `_assignment_consistent`. -/
def assignmentConsistent (value : CspValue) (assignment : CspAssignment) : Bool :=
  assignment.all (fun p => valuesSatisfyConstraint value p.2)

/-- `min(unassigned_vars, key=lambda v: len(domains[v]))`: first minimum. -/
def minByDomainSize (vars : List String) (domains : Domains) : Option String :=
  vars.foldl
    (fun acc v =>
      match acc with
      | none => some v
      | some w =>
          if ((dictFind domains v).getD []).length <
              ((dictFind domains w).getD []).length
          then some v else some w)
    none

/-- `_forward_check(var, value, variables, domains, assignment, constraints)`:
either the inference dict (variable to values to remove) or `none` when some
unassigned variable would lose its whole domain. -/
def forwardCheck (var : String) (value : CspValue) :
    List String → Domains → CspAssignment →
    Option (List (String × List CspValue))
  | [], _, _ => some []
  | other :: rest, domains, assignment =>
      if other ≠ var ∧ (dictFind assignment other).isNone then
        let dom := (dictFind domains other).getD []
        let removed := dom.filter (fun ov => !valuesSatisfyConstraint value ov)
        if removed.isEmpty then forwardCheck var value rest domains assignment
        else if removed.length = dom.length then none
        else (forwardCheck var value rest domains assignment).map
          (fun inf => (other, removed) :: inf)
      else forwardCheck var value rest domains assignment

/-- `list.remove(v)`: drop the first occurrence. -/
def removeOne {α : Type} [DecidableEq α] : List α → α → List α
  | [], _ => []
  | x :: rest, a => if x = a then rest else x :: removeOne rest a

/-- Applying one inference entry: remove each removed value (guarded by the
`if removed_val in domains[inf_var]` membership test). -/
def removeValues (dom : List CspValue) (removed : List CspValue) : List CspValue :=
  removed.foldl (fun d v => if d.contains v then removeOne d v else d) dom

/-- The `old_domains` bookkeeping plus domain pruning before the recursive
call: returns the pruned domains and the saved `(variable, old domain)` list. -/
def applyInference (domains : Domains)
    (inference : List (String × List CspValue)) :
    Domains × List (String × List CspValue) :=
  inference.foldl
    (fun acc p =>
      let old := (dictFind acc.1 p.1).getD []
      (dictSet acc.1 p.1 (removeValues old p.2), acc.2 ++ [(p.1, old)]))
    (domains, [])

/-- The `for value in domain_values` loop of `_csp_backtrack`: tentatively
assign, forward-check, prune, recurse (via `recurse`, the search at the next
depth), restore and undo. -/
def tryCspValues (recurse : Domains → CspAssignment → Except Unit (Option CspAssignment))
    (vars : List String) (allow_conflicts : Bool) (var : String) :
    List CspValue → Domains → CspAssignment → Except Unit (Option CspAssignment)
  | [], _, _ => .ok none
  | value :: more, domains, assignment =>
      if allow_conflicts || assignmentConsistent value assignment then
        let assignment1 := dictSet assignment var value
        let inference := forwardCheck var value vars domains assignment1
        if inference.isSome || allow_conflicts then
          let applied :=
            match inference with
            | some inf => if inf.isEmpty then (domains, []) else applyInference domains inf
            | none => (domains, [])
          match recurse applied.1 assignment1 with
          | .error e => .error e
          | .ok (some result) => .ok (some result)
          | .ok none =>
              let restored := applied.2.foldl (fun d p => dictSet d p.1 p.2) applied.1
              tryCspValues recurse vars allow_conflicts var
                more restored (dictDel assignment1 var)
        else
          tryCspValues recurse vars allow_conflicts var
            more domains (dictDel assignment1 var)
      else
        tryCspValues recurse vars allow_conflicts var more domains assignment

/-- `_csp_backtrack`.  The `fuel` argument only bounds the recursion depth for
Lean: every recursive call strictly grows the assignment by one fresh variable
from `vars`, so a depth of `vars.length + 1` (which `solveCsp` supplies) can
never be exhausted; the `.error` on zero fuel is unreachable. -/
def cspBacktrack (vars : List String) (max_iterations : Nat)
    (allow_conflicts : Bool) :
    Nat → Domains → CspAssignment → Except Unit (Option CspAssignment)
  | 0, _, _ => .error ()
  | fuel + 1, domains, assignment =>
      if assignment.length = vars.length then .ok (some assignment)
      else if max_iterations < assignment.length then .ok none
      else
        let unassigned := vars.filter (fun v => (dictFind assignment v).isNone)
        match minByDomainSize unassigned domains with
        | none => .error ()
        | some var =>
            let domain_values := stableSortBy
              (fun a b => countConflicts a assignment ≤ countConflicts b assignment)
              ((dictFind domains var).getD [])
            tryCspValues (cspBacktrack vars max_iterations allow_conflicts fuel)
              vars allow_conflicts var domain_values domains assignment

/-- `_solve_csp(variables, domains, constraints, max_iterations, allow_conflicts)`. -/
def solveCsp (vars : List String) (domains : Domains)
    (constraints : List (String × String)) (max_iterations : Nat)
    (allow_conflicts : Bool) : Except Unit (Option CspAssignment) :=
  if !allow_conflicts then
    let domains2 := applyArcConsistency vars domains constraints
    match anyEmptyDomain vars domains2 with
    | .error e => .error e
    | .ok true => .ok none
    | .ok false =>
        cspBacktrack vars max_iterations allow_conflicts
          (vars.length + 1) domains2 []
  else
    cspBacktrack vars max_iterations allow_conflicts
      (vars.length + 1) domains []

/-- `_convert_csp_solution_to_schedule`. -/
def convertCspSolutionToSchedule (solution : CspAssignment) : List ScheduleEntry :=
  solution.flatMap (fun p =>
    let v := p.2
    let component_type := backtrackComponentType v.course
    v.pattern.map (fun s =>
      mkScheduleEntry v.course v.sectionRow s v.room v.faculty component_type))

/-- Result of `_constraint_satisfaction_scheduling`; an `.error` models an
uncaught Python exception (`KeyError`) escaping `generate_schedule`. -/
structure CspSchedResult where
  usedFallback : Bool
  schedule : List ScheduleEntry
  warnings : List (String × String)
  day_pairing_counter : Nat
deriving DecidableEq, Repr

/-- `_constraint_satisfaction_scheduling(courses_to_schedule, max_iterations,
allow_conflicts)`.  Note the `if solution:` truthiness test: both `None` and an
empty solution dict trigger the greedy-with-conflicts fallback. -/
def constraintSatisfactionScheduling (courses : List Course) (rooms : List Room)
    (faculty : List FacultyMember) (sections : List SectionRow)
    (max_iterations : Nat) (allow_conflicts : Bool) (counter : Nat) :
    Except Unit CspSchedResult :=
  let build := cspBuild courses sections faculty rooms counter
  let vars := build.1
  let domains := build.2
  let constraints := generateCspConstraints vars
  match solveCsp vars domains constraints max_iterations allow_conflicts with
  | .error e => .error e
  | .ok solution =>
      match solution with
      | some sol =>
          if sol.isEmpty then
            let g := greedyScheduling courses rooms faculty sections true counter
            .ok { usedFallback := true, schedule := g.state.schedule,
                  warnings := g.warnings,
                  day_pairing_counter := g.state.day_pairing_counter }
          else
            .ok { usedFallback := false,
                  schedule := convertCspSolutionToSchedule sol, warnings := [],
                  day_pairing_counter := counter }
      | none =>
          let g := greedyScheduling courses rooms faculty sections true counter
          .ok { usedFallback := true, schedule := g.state.schedule,
                warnings := g.warnings,
                day_pairing_counter := g.state.day_pairing_counter }

/-! ### The `generate_schedule` entry point -/

/-- The caller-selected algorithm. -/
inductive Algorithm where
  | greedy
  | backtracking
  | constraintSatisfaction
deriving DecidableEq, Repr

/-- The observable outcome of one `generate_schedule` call: the returned
schedule rows and the value of `self.day_pairing_counter` after the call
(the counter persists on the scheduler object between calls). -/
structure RunOutput where
  schedule : List ScheduleEntry
  day_pairing_counter : Nat
deriving DecidableEq, Repr

/-- `generate_schedule(algorithm, max_iterations, term_filter, allow_conflicts)`.
The `if term_filter:` truthiness test skips filtering for `None` (and for a
falsy term value).  An `.error` is an uncaught exception escaping the call. -/
def generateSchedule (courses : List Course) (rooms : List Room)
    (faculty : List FacultyMember) (sections : List SectionRow)
    (algorithm : Algorithm) (max_iterations : Nat) (term_filter : Option Nat)
    (allow_conflicts : Bool) (counter : Nat) : Except Unit RunOutput :=
  let courses_to_schedule :=
    match term_filter with
    | some t => if t ≠ 0 then courses.filter (fun c => c.term = t) else courses
    | none => courses
  match algorithm with
  | .greedy =>
      let g := greedyScheduling courses_to_schedule rooms faculty sections
        allow_conflicts counter
      .ok { schedule := g.state.schedule,
            day_pairing_counter := g.state.day_pairing_counter }
  | .backtracking =>
      let b := backtrackingScheduling courses_to_schedule rooms faculty sections
        max_iterations allow_conflicts counter
      .ok { schedule := b.state.schedule,
            day_pairing_counter := b.state.day_pairing_counter }
  | .constraintSatisfaction =>
      match constraintSatisfactionScheduling courses_to_schedule rooms faculty
          sections max_iterations allow_conflicts counter with
      | .error e => .error e
      | .ok r => .ok { schedule := r.schedule,
                       day_pairing_counter := r.day_pairing_counter }

/-! ### Concrete fixtures used by counterexamples and witnesses -/

/-- A 2-hour pure-lecture course. -/
def lecCourse2h : Course :=
  { course_code := "C1", course_title := "T", program := "P", year_level := 1,
    term := 1, course_type := CourseType.Lecture, units := 3, hours_per_week := 2 }

/-- A 3-hour pure-lecture course (its patterns are two-session, so placing it
moves the rotation counter visibly). -/
def lecCourse3h : Course := { lecCourse2h with hours_per_week := 3 }

/-- A 6-hour `Both` course. -/
def bothCourse6h : Course :=
  { lecCourse2h with
    course_code := "CB"
    course_type := CourseType.Both
    hours_per_week := 6 }

/-- A section matching the fixture courses. -/
def sectionS1 : SectionRow :=
  { section_name := "S1", program := "P", year_level := 1, term := 1,
    students_count := 30 }

def facultyF : FacultyMember := { faculty_name := "F" }

def facultyG : FacultyMember := { faculty_name := "G" }

def roomLectureA : Room :=
  { room_name := "LEC", room_type := RoomType.Lecture, capacity := 40 }

def roomLectureB : Room :=
  { room_name := "LEC2", room_type := RoomType.Lecture, capacity := 40 }

def roomLabA : Room :=
  { room_name := "LAB", room_type := RoomType.Lab, capacity := 40 }

/-! ### C8: the overlap predicate -/

/-- C8: `_times_overlap` returns true exactly when neither interval ends at or
before the other starts; in particular two intervals that merely touch at a
boundary do not overlap. -/
theorem times_overlap_spec (start1 end1 start2 end2 : Time) :
    (timesOverlap start1 end1 start2 end2 = true ↔
      ¬ (end1 ≤ start2 ∨ end2 ≤ start1)) ∧
    (end1 = start2 ∨ end2 = start1 →
      timesOverlap start1 end1 start2 end2 = false) := by
  constructor
  · simp [timesOverlap]
  · rintro (h | h) <;> simp [timesOverlap, h]

/-- Witness for `times_overlap_spec`: 07:00–08:00 and 08:00–09:00 merely touch
and are reported conflict-free. -/
theorem times_overlap_spec_witness : timesOverlap 420 480 480 540 = false :=
  (times_overlap_spec 420 480 480 540).2 (Or.inl rfl)

/-! ### C6: the rotation counter is incremented on every record -/

/-- A single-session pattern (Monday 07:00–08:00). -/
def oneSessionMonday : Pattern :=
  [{ day := Day.monday, start_time := 420, end_time := 480, duration := 60 }]

/-- A small state with initialised resource names and counter 0. -/
def smallState : SchedState :=
  { schedule := [], faculty_schedule := [("F", [])], room_schedule := [("R", [])],
    section_schedule := [("S1", [])], day_pairing_counter := 0 }

/-- C6 counterexample: recording a single-session pattern does not leave the
rotation counter unchanged — `_make_assignment` increments it unconditionally. -/
theorem single_session_record_changes_counter :
    oneSessionMonday.length = 1 ∧
    (makeAssignment oneSessionMonday lecCourse2h sectionS1 "F" "R"
        ComponentType.Lecture smallState).day_pairing_counter ≠
      smallState.day_pairing_counter := by
  decide

/-- The per-session loop of `_make_assignment` never touches the counter. -/
theorem foldl_recordSession_counter (course : Course) (sec : SectionRow)
    (faculty_name room_name : String) (ct : ComponentType) :
    ∀ (pattern : Pattern) (st : SchedState),
      (pattern.foldl (recordSession course sec faculty_name room_name ct)
          st).day_pairing_counter = st.day_pairing_counter := by
  intro pattern
  induction pattern with
  | nil => intro st; rfl
  | cons s rest ih => intro st; simpa using ih _

/-- The per-session loop of `_make_assignment_backtrack` never touches the
counter. -/
theorem foldl_recordSessionData_counter (course : Course) (sec : SectionRow)
    (faculty_name room_name : String) (ct : ComponentType) :
    ∀ (pattern : Pattern) (a : SchedState × List Nat),
      (pattern.foldl
          (fun (a : SchedState × List Nat) s =>
            let st2 := recordSession course sec faculty_name room_name ct a.1 s
            (st2, a.2 ++ [st2.schedule.length - 1]))
          a).1.day_pairing_counter = a.1.day_pairing_counter := by
  intro pattern
  induction pattern with
  | nil => intro a; rfl
  | cons s rest ih => intro a; simpa using ih _

/-- C6 amended: both record paths increment the rotation counter by exactly one
on every successful assignment, whatever the number of sessions in the pattern. -/
theorem record_always_increments_counter (pattern : Pattern) (course : Course)
    (sec : SectionRow) (faculty_name room_name : String) (ct : ComponentType)
    (opt : AssignmentOption) (st : SchedState) :
    (makeAssignment pattern course sec faculty_name room_name ct
        st).day_pairing_counter = st.day_pairing_counter + 1 ∧
    (makeAssignmentBacktrack opt course sec st).1.day_pairing_counter =
      st.day_pairing_counter + 1 := by
  constructor
  · simp [makeAssignment, foldl_recordSession_counter]
  · simp [makeAssignmentBacktrack, backtrackComponentType,
      foldl_recordSessionData_counter]

/-! ### C9: a failed Both placement keeps its Lecture half -/

/-- C9: with one Lecture room and no Lab room, greedy places the Lecture half
of a 6-hour Both course, fails on the Lab half, reports the course skipped —
and the two Lecture entries stay in the schedule and in all three ledgers. -/
theorem greedy_both_partial_record_kept :
    (greedyScheduling [bothCourse6h] [roomLectureA] [facultyF] [sectionS1]
        false 0).warnings = [("CB", "S1")] ∧
    (greedyScheduling [bothCourse6h] [roomLectureA] [facultyF] [sectionS1]
        false 0).state.schedule.map
        (fun e => (e.course_code, e.course_type, e.day, e.start_time, e.end_time)) =
      [("CB", ComponentType.Lecture, Day.monday, 420, 510),
       ("CB", ComponentType.Lecture, Day.thursday, 420, 510)] ∧
    ledgerSessions (greedyScheduling [bothCourse6h] [roomLectureA] [facultyF]
        [sectionS1] false 0).state.faculty_schedule "F" Day.monday =
      [{ start_time := 420, end_time := 510, course := "CB", sectionName := "S1" }] ∧
    ledgerSessions (greedyScheduling [bothCourse6h] [roomLectureA] [facultyF]
        [sectionS1] false 0).state.room_schedule "LEC" Day.monday =
      [{ start_time := 420, end_time := 510, course := "CB", sectionName := "S1" }] ∧
    ledgerSessions (greedyScheduling [bothCourse6h] [roomLectureA] [facultyF]
        [sectionS1] false 0).state.section_schedule "S1" Day.monday =
      [{ start_time := 420, end_time := 510, course := "CB", sectionName := "S1" }] := by
  decide

/-! ### C2: the rotation counter survives between calls -/

/-- C2 counterexample: for a fixed input, a first greedy `generate_schedule`
call leaves the scheduler's rotation counter at 1, and a second call (which
starts from that persisting counter) returns a different schedule. -/
theorem generate_schedule_second_run_differs :
    (generateSchedule [lecCourse3h] [roomLectureA] [facultyF] [sectionS1]
        Algorithm.greedy 1000 none false 0).toOption.map
        RunOutput.day_pairing_counter = some 1 ∧
    (generateSchedule [lecCourse3h] [roomLectureA] [facultyF] [sectionS1]
        Algorithm.greedy 1000 none false 1).toOption.map RunOutput.schedule ≠
      (generateSchedule [lecCourse3h] [roomLectureA] [facultyF] [sectionS1]
        Algorithm.greedy 1000 none false 0).toOption.map RunOutput.schedule := by
  decide

/-! ### C3: the AC-3 inconsistency sentinel raises instead of falling back -/

/-- A 1-hour Monday 07:00–08:00 pattern for the CSP counterexample. -/
def cspPattern : Pattern :=
  [{ day := Day.monday, start_time := 420, end_time := 480, duration := 60 }]

/-- Two singleton domains sharing one faculty with overlapping patterns. -/
def cspValueA : CspValue :=
  { pattern := cspPattern, faculty := "F", room := "R1", course := lecCourse2h,
    sectionRow := sectionS1 }

def cspValueB : CspValue :=
  { pattern := cspPattern, faculty := "F", room := "R2", course := lecCourse2h,
    sectionRow := sectionS1 }

def cspVarsX : List String := ["A", "B"]

def cspDomainsX : Domains := [("A", [cspValueA]), ("B", [cspValueB])]

def cspConstraintsX : List (String × String) := [("A", "B")]

/-- C3: on an input whose (initially non-empty) domains are emptied by AC-3
pruning, `_apply_arc_consistency` returns the `{}` sentinel and `_solve_csp`
then raises `KeyError` while evaluating `any(not domains[var] for var in
variables)` — it never returns the `None` that would trigger the
greedy-with-conflicts fallback. -/
theorem arc_consistency_empty_domain_keyerror :
    dictFind cspDomainsX "A" = some [cspValueA] ∧
    dictFind cspDomainsX "B" = some [cspValueB] ∧
    applyArcConsistency cspVarsX cspDomainsX cspConstraintsX = [] ∧
    solveCsp cspVarsX cspDomainsX cspConstraintsX 1000 false = .error () := by
  have hc : valuesSatisfyConstraint cspValueA cspValueB = false := by decide
  have h1 : applyArcConsistency ["A", "B"] [("A", [cspValueA]), ("B", [cspValueB])]
      [("A", "B")] = [] := by
    simp [applyArcConsistency]
    rw [acThreeLoop]
    simp [dictFind, reviseKeep, hc]
  refine ⟨by decide, by decide, ?_, ?_⟩
  · simpa [cspVarsX, cspDomainsX, cspConstraintsX] using h1
  · simp [solveCsp, cspVarsX, cspDomainsX, cspConstraintsX, h1, anyEmptyDomain,
      dictFind]

/-! ### C4: backtracking does not split Both courses -/

/-- C4 counterexample: under the backtracking assigner a 6-hour `Both` course
is not split into Lecture and Lab halves: the genuine (non-fallback) result
consists of entries tagged `Both`, all placed in the Lecture-type room. -/
theorem backtracking_both_course_not_split :
    (backtrackingScheduling [bothCourse6h] [roomLectureA, roomLabA] [facultyF]
        [sectionS1] 1000 false 0).usedFallback = false ∧
    (backtrackingScheduling [bothCourse6h] [roomLectureA, roomLabA] [facultyF]
        [sectionS1] 1000 false 0).state.schedule.map
        (fun e => (e.course_type, e.room, e.day, e.start_time, e.end_time)) =
      [(ComponentType.Both, "LEC", Day.monday, 420, 600),
       (ComponentType.Both, "LEC", Day.thursday, 420, 600)] := by
  decide

/-! ### C5: the single-session generator skips the last four start slots -/

/-- C5 counterexample: for a 1-hour lecture, the pair (Monday, 19:00) has
19:00 + 1h = 20:00 on the slot grid, yet no generated pattern uses a Monday
19:00 start — the generator only draws starts from `time_slots[:-4]`. -/
theorem single_session_pattern_omits_late_starts :
    (1 ≤ 2 ∧ ¬ shouldSplit 1 ComponentType.Lecture) ∧
    (1140 ∈ timeSlots ∧ addMinutesToTime 1140 (60 * 1) ∈ timeSlots) ∧
    (getTimePatterns 1 ComponentType.Lecture 0).all
      (fun p => p.all (fun s => !(decide (s.day = Day.monday) &&
        decide (s.start_time = 1140)))) = true := by
  decide

/-! ### C10 and C5: the pattern generator and the slot grid -/

/-- Membership characterisation of the single-session branch. -/
theorem mem_singleSessionPatterns {hours : Nat} {p : Pattern} :
    p ∈ singleSessionPatterns hours ↔
      ∃ day start_time, day ∈ days ∧ start_time ∈ timeSlots.take 24 ∧
        addMinutesToTime start_time (60 * hours) ∈ timeSlots ∧
        p = [{ day := day, start_time := start_time,
               end_time := addMinutesToTime start_time (60 * hours),
               duration := 60 * hours }] := by
  simp only [singleSessionPatterns, List.mem_flatMap, List.mem_filterMap]
  constructor
  · rintro ⟨day, hday, st, hst, hmk⟩
    split at hmk
    · refine ⟨day, st, hday, hst, by assumption, ?_⟩
      exact (Option.some_inj.1 hmk).symm
    · cases hmk
  · rintro ⟨day, st, hday, hst, hend, rfl⟩
    exact ⟨day, hday, st, hst, by simp [hend]⟩

/-- Membership characterisation of the two-session branches. -/
theorem mem_twoSessionPatterns {dps : List (Day × Day)} {takeCount m : Nat}
    {p : Pattern} :
    p ∈ twoSessionPatterns dps takeCount m ↔
      ∃ dp start_time, dp ∈ dps ∧ start_time ∈ timeSlots.take takeCount ∧
        addMinutesToTime start_time m ∈ timeSlots ∧
        p = [{ day := dp.1, start_time := start_time,
               end_time := addMinutesToTime start_time m, duration := m },
             { day := dp.2, start_time := start_time,
               end_time := addMinutesToTime start_time m, duration := m }] := by
  simp only [twoSessionPatterns, List.mem_flatMap, List.mem_filterMap]
  constructor
  · rintro ⟨dp, hdp, st, hst, hmk⟩
    split at hmk
    · refine ⟨dp, st, hdp, hst, by assumption, ?_⟩
      exact (Option.some_inj.1 hmk).symm
    · cases hmk
  · rintro ⟨dp, st, hdp, hst, hend, rfl⟩
    exact ⟨dp, hdp, st, hst, by simp [hend]⟩

/-- Every grid slot is strictly before 21:00 (1260 minutes). -/
theorem timeSlots_lt_1260 : ∀ t ∈ timeSlots, t < 1260 := by decide

/-- C10: every session of every generated pattern has its start and end time on
the 28-slot grid 07:00–20:30; since 21:00 is not a grid slot, no generated
session ends at or after 21:00. -/
theorem pattern_sessions_on_grid (hours : Nat) (ct : ComponentType)
    (counter : Nat) (p : Pattern) (hp : p ∈ getTimePatterns hours ct counter)
    (s : Session) (hs : s ∈ p) :
    s.start_time ∈ timeSlots ∧ s.end_time ∈ timeSlots ∧ s.end_time < 1260 := by
  have hmain : s.start_time ∈ timeSlots ∧ s.end_time ∈ timeSlots := by
    unfold getTimePatterns at hp
    split_ifs at hp
    · obtain ⟨day, st, _, hst, hend, rfl⟩ := mem_singleSessionPatterns.1 hp
      rcases List.mem_singleton.1 hs with rfl
      exact ⟨List.take_subset _ _ hst, hend⟩
    all_goals
      obtain ⟨dp, st, _, hst, hend, rfl⟩ := mem_twoSessionPatterns.1 hp
      rcases List.mem_cons.1 hs with rfl | hs2
      · exact ⟨List.take_subset _ _ hst, hend⟩
      · rcases List.mem_singleton.1 hs2 with rfl
        exact ⟨List.take_subset _ _ hst, hend⟩
  exact ⟨hmain.1, hmain.2, timeSlots_lt_1260 _ hmain.2⟩

/-- Witness for `pattern_sessions_on_grid`: a session of a generated 26-hour
pattern starts 07:00 and ends 20:00, both grid slots before 21:00. -/
theorem pattern_sessions_on_grid_witness :
    (420 : Time) ∈ timeSlots ∧ (1200 : Time) ∈ timeSlots ∧ (1200 : Time) < 1260 :=
  pattern_sessions_on_grid 26 ComponentType.Lecture 0
    [{ day := Day.monday, start_time := 420, end_time := 1200, duration := 780 },
     { day := Day.thursday, start_time := 420, end_time := 1200, duration := 780 }]
    (by decide)
    { day := Day.monday, start_time := 420, end_time := 1200, duration := 780 }
    (by decide)

/-- C5 amended: under the single-session conditions the generator produces
exactly one candidate per (day, start) pair with the start drawn from the first
24 grid slots (`time_slots[:-4]`) and the end landing on the grid. -/
theorem single_session_patterns_spec (hours : Nat) (ct : ComponentType)
    (counter : Nat) (h2 : hours ≤ 2) (hns : ¬ shouldSplit hours ct) :
    (∀ p : Pattern, p ∈ getTimePatterns hours ct counter ↔
      ∃ day start_time, day ∈ days ∧ start_time ∈ timeSlots.take 24 ∧
        addMinutesToTime start_time (60 * hours) ∈ timeSlots ∧
        p = [{ day := day, start_time := start_time,
               end_time := addMinutesToTime start_time (60 * hours),
               duration := 60 * hours }]) ∧
    (getTimePatterns hours ct counter).Nodup := by
  have hbr : getTimePatterns hours ct counter = singleSessionPatterns hours := by
    unfold getTimePatterns
    rw [if_pos ⟨h2, hns⟩]
  rw [hbr]
  refine ⟨fun p => mem_singleSessionPatterns, ?_⟩
  unfold singleSessionPatterns
  rw [List.nodup_flatMap]
  constructor
  · intro day _
    apply List.Nodup.filterMap
    · intro a b c hc hc2
      dsimp only at hc hc2
      split at hc
      · split at hc2
        · have e1 := Option.mem_some_iff.1 hc
          have e2 := Option.mem_some_iff.1 hc2
          rw [← e1] at e2
          simp only [List.cons.injEq, Session.mk.injEq, and_true] at e2
          exact e2.2.1.symm
        · cases hc2
      · cases hc
    · decide
  · have hd : days.Nodup := by decide
    refine hd.imp ?_
    intro d1 d2 hne p hp1 hp2
    simp only [List.mem_filterMap] at hp1 hp2
    obtain ⟨a, _, ha⟩ := hp1
    obtain ⟨b, _, hb⟩ := hp2
    split at ha
    · split at hb
      · have e1 := Option.some_inj.1 ha
        have e2 := Option.some_inj.1 hb
        rw [← e2] at e1
        simp only [List.cons.injEq, Session.mk.injEq, and_true] at e1
        exact hne e1.1
      · cases hb
    · cases ha

/-- Witness for `single_session_patterns_spec`: for 1-hour lectures the pattern
(Monday 07:00–08:00) is generated. -/
theorem single_session_patterns_spec_witness :
    [{ day := Day.monday, start_time := 420, end_time := 480,
       duration := 60 }] ∈ getTimePatterns 1 ComponentType.Lecture 0 :=
  ((single_session_patterns_spec 1 ComponentType.Lecture 0 (by decide)
      (by decide)).1 _).2
    ⟨Day.monday, 420, by decide, by decide, by decide, by decide⟩

/-! ### C2 amended: the greedy output depends on the counter only mod 3 -/

/-- The pattern generator reads the counter only through `% 3`. -/
theorem getTimePatterns_mod3 (hours : Nat) (ct : ComponentType) {c1 c2 : Nat}
    (h : c1 % 3 = c2 % 3) :
    getTimePatterns hours ct c1 = getTimePatterns hours ct c2 := by
  unfold getTimePatterns rotatedDayPairings
  rw [h]

/-- Two states that agree everywhere except that their rotation counters are
merely congruent modulo 3. -/
def CounterCongruent (st1 st2 : SchedState) : Prop :=
  st1.schedule = st2.schedule ∧
  st1.faculty_schedule = st2.faculty_schedule ∧
  st1.room_schedule = st2.room_schedule ∧
  st1.section_schedule = st2.section_schedule ∧
  st1.day_pairing_counter % 3 = st2.day_pairing_counter % 3

theorem recordSession_congruent (course : Course) (sec : SectionRow)
    (faculty_name room_name : String) (ct : ComponentType)
    {st1 st2 : SchedState} (h : CounterCongruent st1 st2) (s : Session) :
    CounterCongruent (recordSession course sec faculty_name room_name ct st1 s)
      (recordSession course sec faculty_name room_name ct st2 s) := by
  obtain ⟨h1, h2, h3, h4, h5⟩ := h
  exact ⟨by simp [recordSession, h1], by simp [recordSession, h2],
    by simp [recordSession, h3], by simp [recordSession, h4],
    by simp [recordSession, h5]⟩

theorem foldl_recordSession_congruent (course : Course) (sec : SectionRow)
    (faculty_name room_name : String) (ct : ComponentType) :
    ∀ (pattern : Pattern) {st1 st2 : SchedState}, CounterCongruent st1 st2 →
      CounterCongruent
        (pattern.foldl (recordSession course sec faculty_name room_name ct) st1)
        (pattern.foldl (recordSession course sec faculty_name room_name ct) st2) := by
  intro pattern
  induction pattern with
  | nil => intro st1 st2 h; exact h
  | cons s rest ih =>
      intro st1 st2 h
      exact ih (recordSession_congruent course sec faculty_name room_name ct h s)

theorem makeAssignment_congruent (pattern : Pattern) (course : Course)
    (sec : SectionRow) (faculty_name room_name : String) (ct : ComponentType)
    {st1 st2 : SchedState} (h : CounterCongruent st1 st2) :
    CounterCongruent
      (makeAssignment pattern course sec faculty_name room_name ct st1)
      (makeAssignment pattern course sec faculty_name room_name ct st2) := by
  have hf := foldl_recordSession_congruent course sec faculty_name room_name ct
    pattern h
  obtain ⟨h1, h2, h3, h4, h5⟩ := hf
  refine ⟨by simpa [makeAssignment] using h1, by simpa [makeAssignment] using h2,
    by simpa [makeAssignment] using h3, by simpa [makeAssignment] using h4, ?_⟩
  simp only [makeAssignment]
  omega

theorem findAssignmentOption_congruent (time_patterns : List Pattern)
    (suitable_faculty : List FacultyMember) (suitable_rooms : List Room)
    (section_name : String) {st1 st2 : SchedState} (h : CounterCongruent st1 st2)
    (allow_conflicts : Bool) :
    findAssignmentOption time_patterns suitable_faculty suitable_rooms
        section_name st1 allow_conflicts =
      findAssignmentOption time_patterns suitable_faculty suitable_rooms
        section_name st2 allow_conflicts := by
  obtain ⟨_, h2, h3, h4, _⟩ := h
  simp only [findAssignmentOption, h2, h3, h4]

theorem scheduleCourseComponent_congruent (course : Course) (sec : SectionRow)
    (ct : ComponentType) (hours : Nat) (suitable_faculty : List FacultyMember)
    (suitable_rooms : List Room) (allow_conflicts : Bool)
    {st1 st2 : SchedState} (h : CounterCongruent st1 st2) :
    (scheduleCourseComponent course sec ct hours suitable_faculty suitable_rooms
        allow_conflicts st1).1 =
      (scheduleCourseComponent course sec ct hours suitable_faculty
        suitable_rooms allow_conflicts st2).1 ∧
    CounterCongruent
      (scheduleCourseComponent course sec ct hours suitable_faculty
        suitable_rooms allow_conflicts st1).2
      (scheduleCourseComponent course sec ct hours suitable_faculty
        suitable_rooms allow_conflicts st2).2 := by
  have hpat : getTimePatterns hours ct st1.day_pairing_counter =
      getTimePatterns hours ct st2.day_pairing_counter :=
    getTimePatterns_mod3 hours ct h.2.2.2.2
  have hfind := findAssignmentOption_congruent
    (getTimePatterns hours ct st1.day_pairing_counter) suitable_faculty
    suitable_rooms sec.section_name h allow_conflicts
  simp only [scheduleCourseComponent, hpat] at hfind ⊢
  rw [hfind]
  rcases hopt : findAssignmentOption
      (getTimePatterns hours ct st2.day_pairing_counter) suitable_faculty
      suitable_rooms sec.section_name st2 allow_conflicts with _ | opt
  · exact ⟨rfl, h⟩
  · exact ⟨rfl, makeAssignment_congruent _ _ _ _ _ _ h⟩

theorem scheduleLectureLabCourse_congruent (course : Course) (sec : SectionRow)
    (suitable_faculty : List FacultyMember) (rooms : List Room)
    (allow_conflicts : Bool) {st1 st2 : SchedState} (h : CounterCongruent st1 st2) :
    (scheduleLectureLabCourse course sec suitable_faculty rooms allow_conflicts
        st1).1 =
      (scheduleLectureLabCourse course sec suitable_faculty rooms
        allow_conflicts st2).1 ∧
    CounterCongruent
      (scheduleLectureLabCourse course sec suitable_faculty rooms
        allow_conflicts st1).2
      (scheduleLectureLabCourse course sec suitable_faculty rooms
        allow_conflicts st2).2 := by
  obtain ⟨hb1, hs1⟩ := scheduleCourseComponent_congruent course sec
    ComponentType.Lecture (course.hours_per_week / 2) suitable_faculty
    (rooms.filter (fun r => r.room_type = RoomType.Lecture)) allow_conflicts h
  obtain ⟨hb2, hs2⟩ := scheduleCourseComponent_congruent course sec
    ComponentType.Lab (course.hours_per_week - course.hours_per_week / 2)
    suitable_faculty (rooms.filter (fun r => r.room_type = RoomType.Lab))
    allow_conflicts hs1
  simp only [scheduleLectureLabCourse]
  rw [hb1]
  split
  · exact ⟨rfl, hs1⟩
  · rw [hb2]
    exact ⟨rfl, hs2⟩

theorem scheduleSingleTypeCourse_congruent (course : Course) (sec : SectionRow)
    (suitable_faculty : List FacultyMember) (suitable_rooms : List Room)
    (allow_conflicts : Bool) {st1 st2 : SchedState}
    (h : CounterCongruent st1 st2) :
    (scheduleSingleTypeCourse course sec suitable_faculty suitable_rooms
        allow_conflicts st1).1 =
      (scheduleSingleTypeCourse course sec suitable_faculty suitable_rooms
        allow_conflicts st2).1 ∧
    CounterCongruent
      (scheduleSingleTypeCourse course sec suitable_faculty suitable_rooms
        allow_conflicts st1).2
      (scheduleSingleTypeCourse course sec suitable_faculty suitable_rooms
        allow_conflicts st2).2 := by
  simp only [scheduleSingleTypeCourse]
  exact scheduleCourseComponent_congruent course sec _ _ suitable_faculty
    suitable_rooms allow_conflicts h

theorem assignCourseToSection_congruent (course : Course) (sec : SectionRow)
    (faculty : List FacultyMember) (rooms : List Room) (allow_conflicts : Bool)
    {st1 st2 : SchedState} (h : CounterCongruent st1 st2) :
    (assignCourseToSection course sec faculty rooms allow_conflicts st1).1 =
      (assignCourseToSection course sec faculty rooms allow_conflicts st2).1 ∧
    CounterCongruent
      (assignCourseToSection course sec faculty rooms allow_conflicts st1).2
      (assignCourseToSection course sec faculty rooms allow_conflicts st2).2 := by
  simp only [assignCourseToSection]
  split_ifs <;>
    first
    | exact ⟨rfl, h⟩
    | exact scheduleLectureLabCourse_congruent course sec _ rooms
        allow_conflicts h
    | exact scheduleSingleTypeCourse_congruent course sec _ _
        allow_conflicts h

theorem foldl_assign_congruent (faculty : List FacultyMember)
    (rooms : List Room) (allow_conflicts : Bool) (sec : SectionRow) :
    ∀ (l : List Course) {a1 a2 : SchedState × List (String × String)},
      CounterCongruent a1.1 a2.1 → a1.2 = a2.2 →
      CounterCongruent
        (l.foldl (fun a course =>
          let res := assignCourseToSection course sec faculty rooms
            allow_conflicts a.1
          let warnings :=
            if !res.1 && !allow_conflicts then
              a.2 ++ [(course.course_code, sec.section_name)]
            else a.2
          (res.2, warnings)) a1).1
        (l.foldl (fun a course =>
          let res := assignCourseToSection course sec faculty rooms
            allow_conflicts a.1
          let warnings :=
            if !res.1 && !allow_conflicts then
              a.2 ++ [(course.course_code, sec.section_name)]
            else a.2
          (res.2, warnings)) a2).1 ∧
      (l.foldl (fun a course =>
          let res := assignCourseToSection course sec faculty rooms
            allow_conflicts a.1
          let warnings :=
            if !res.1 && !allow_conflicts then
              a.2 ++ [(course.course_code, sec.section_name)]
            else a.2
          (res.2, warnings)) a1).2 =
        (l.foldl (fun a course =>
          let res := assignCourseToSection course sec faculty rooms
            allow_conflicts a.1
          let warnings :=
            if !res.1 && !allow_conflicts then
              a.2 ++ [(course.course_code, sec.section_name)]
            else a.2
          (res.2, warnings)) a2).2 := by
  intro l
  induction l with
  | nil => intro a1 a2 hst hw; exact ⟨hst, hw⟩
  | cons c rest ih =>
      intro a1 a2 hst hw
      simp only [List.foldl_cons]
      have hc := assignCourseToSection_congruent c sec faculty rooms
        allow_conflicts hst
      exact ih hc.2 (by rw [hc.1, hw])

theorem greedyScheduleSection_congruent (courses : List Course)
    (faculty : List FacultyMember) (rooms : List Room) (allow_conflicts : Bool)
    (sec : SectionRow) {a1 a2 : SchedState × List (String × String)}
    (hst : CounterCongruent a1.1 a2.1) (hw : a1.2 = a2.2) :
    CounterCongruent
      (greedyScheduleSection courses faculty rooms allow_conflicts a1 sec).1
      (greedyScheduleSection courses faculty rooms allow_conflicts a2 sec).1 ∧
    (greedyScheduleSection courses faculty rooms allow_conflicts a1 sec).2 =
      (greedyScheduleSection courses faculty rooms allow_conflicts a2 sec).2 := by
  unfold greedyScheduleSection
  have hst0 : CounterCongruent
      { a1.1 with
        section_schedule := dictSet a1.1.section_schedule sec.section_name [] }
      { a2.1 with
        section_schedule := dictSet a2.1.section_schedule sec.section_name [] } := by
    obtain ⟨h1, h2, h3, h4, h5⟩ := hst
    exact ⟨h1, h2, h3, by simp [h4], h5⟩
  exact foldl_assign_congruent faculty rooms allow_conflicts sec
    (sectionCourses courses sec) hst0 hw

theorem foldl_sections_congruent (courses : List Course)
    (faculty : List FacultyMember) (rooms : List Room) (allow_conflicts : Bool) :
    ∀ (secs : List SectionRow) {a1 a2 : SchedState × List (String × String)},
      CounterCongruent a1.1 a2.1 → a1.2 = a2.2 →
      CounterCongruent
        (secs.foldl (greedyScheduleSection courses faculty rooms
          allow_conflicts) a1).1
        (secs.foldl (greedyScheduleSection courses faculty rooms
          allow_conflicts) a2).1 ∧
      (secs.foldl (greedyScheduleSection courses faculty rooms
          allow_conflicts) a1).2 =
        (secs.foldl (greedyScheduleSection courses faculty rooms
          allow_conflicts) a2).2 := by
  intro secs
  induction secs with
  | nil => intro a1 a2 hst hw; exact ⟨hst, hw⟩
  | cons sec rest ih =>
      intro a1 a2 hst hw
      simp only [List.foldl_cons]
      have hc := greedyScheduleSection_congruent courses faculty rooms
        allow_conflicts sec hst hw
      exact ih hc.1 hc.2

/-- C2 amended: a greedy `generate_schedule` run is a function of the input
tables and the incoming rotation counter modulo 3: starts from congruent
counters give identical schedules, identical warnings, and finish with
congruent counters. -/
theorem greedy_schedule_counter_mod3 (courses : List Course) (rooms : List Room)
    (faculty : List FacultyMember) (sections : List SectionRow)
    (max_iterations : Nat) (term_filter : Option Nat) (allow_conflicts : Bool)
    (c1 c2 : Nat) (h : c1 % 3 = c2 % 3) :
    (generateSchedule courses rooms faculty sections Algorithm.greedy
        max_iterations term_filter allow_conflicts c1).toOption.map
        RunOutput.schedule =
      (generateSchedule courses rooms faculty sections Algorithm.greedy
        max_iterations term_filter allow_conflicts c2).toOption.map
        RunOutput.schedule ∧
    (generateSchedule courses rooms faculty sections Algorithm.greedy
        max_iterations term_filter allow_conflicts c1).toOption.map
        (fun o => o.day_pairing_counter % 3) =
      (generateSchedule courses rooms faculty sections Algorithm.greedy
        max_iterations term_filter allow_conflicts c2).toOption.map
        (fun o => o.day_pairing_counter % 3) := by
  have hmain : ∀ (cs : List Course),
      CounterCongruent
        (greedyScheduling cs rooms faculty sections allow_conflicts c1).state
        (greedyScheduling cs rooms faculty sections allow_conflicts c2).state ∧
      (greedyScheduling cs rooms faculty sections allow_conflicts c1).warnings =
        (greedyScheduling cs rooms faculty sections allow_conflicts c2).warnings := by
    intro cs
    unfold greedyScheduling
    exact foldl_sections_congruent cs faculty rooms allow_conflicts sections
      ⟨rfl, rfl, rfl, rfl, h⟩ rfl
  simp only [generateSchedule]
  rcases term_filter with _ | t
  · exact ⟨congrArg some (hmain courses).1.1,
      congrArg some (hmain courses).1.2.2.2.2⟩
  · split
    · exact ⟨congrArg some (hmain _).1.1, congrArg some (hmain _).1.2.2.2.2⟩
    · exact ⟨congrArg some (hmain courses).1.1,
        congrArg some (hmain courses).1.2.2.2.2⟩

/-- Witness for `greedy_schedule_counter_mod3`: starting counters 0 and 3 give
the same schedule on the fixture input. -/
theorem greedy_schedule_counter_mod3_witness :
    (generateSchedule [lecCourse3h] [roomLectureA] [facultyF] [sectionS1]
        Algorithm.greedy 1000 none false 0).toOption.map RunOutput.schedule =
      (generateSchedule [lecCourse3h] [roomLectureA] [facultyF] [sectionS1]
        Algorithm.greedy 1000 none false 3).toOption.map RunOutput.schedule :=
  (greedy_schedule_counter_mod3 [lecCourse3h] [roomLectureA] [facultyF]
    [sectionS1] 1000 none false 0 3 rfl).1

/-! ### C4 amended: greedy splits Both courses, backtracking does not -/

theorem mem_insertSorted {α : Type} (le : α → α → Bool) (x a : α) :
    ∀ l : List α, a ∈ insertSorted le x l ↔ a = x ∨ a ∈ l := by
  intro l
  induction l with
  | nil => simp [insertSorted]
  | cons y ys ih =>
      simp only [insertSorted]
      split
      · simp [List.mem_cons]
      · simp only [List.mem_cons, ih]
        tauto

theorem mem_stableSortBy {α : Type} (le : α → α → Bool) (a : α) :
    ∀ l : List α, a ∈ stableSortBy le l ↔ a ∈ l := by
  intro l
  induction l with
  | nil => simp [stableSortBy]
  | cons x xs ih => simp [stableSortBy, mem_insertSorted, ih]

theorem foldl_recordSession_schedule (course : Course) (sec : SectionRow)
    (faculty_name room_name : String) (ct : ComponentType) :
    ∀ (pattern : Pattern) (st : SchedState),
      (pattern.foldl (recordSession course sec faculty_name room_name ct)
          st).schedule =
        st.schedule ++ pattern.map
          (fun s => mkScheduleEntry course sec s room_name faculty_name ct) := by
  intro pattern
  induction pattern with
  | nil => intro st; simp
  | cons s rest ih =>
      intro st
      simp only [List.foldl_cons, List.map_cons, ih]
      simp [recordSession]

/-- `_make_assignment` appends exactly one schedule entry per session. -/
theorem makeAssignment_schedule (pattern : Pattern) (course : Course)
    (sec : SectionRow) (faculty_name room_name : String) (ct : ComponentType)
    (st : SchedState) :
    (makeAssignment pattern course sec faculty_name room_name ct st).schedule =
      st.schedule ++ pattern.map
        (fun s => mkScheduleEntry course sec s room_name faculty_name ct) := by
  simp [makeAssignment, foldl_recordSession_schedule]

theorem foldl_recordSessionData_schedule (course : Course) (sec : SectionRow)
    (faculty_name room_name : String) (ct : ComponentType) :
    ∀ (pattern : Pattern) (a : SchedState × List Nat),
      (pattern.foldl
          (fun (a : SchedState × List Nat) s =>
            let st2 := recordSession course sec faculty_name room_name ct a.1 s
            (st2, a.2 ++ [st2.schedule.length - 1]))
          a).1.schedule =
        a.1.schedule ++ pattern.map
          (fun s => mkScheduleEntry course sec s room_name faculty_name ct) := by
  intro pattern
  induction pattern with
  | nil => intro a; simp
  | cons s rest ih =>
      intro a
      simp only [List.foldl_cons, List.map_cons, ih]
      simp [recordSession]

/-- `_make_assignment_backtrack` appends exactly one schedule entry per
session, tagged with the course-level component type. -/
theorem makeAssignmentBacktrack_schedule (opt : AssignmentOption)
    (course : Course) (sec : SectionRow) (st : SchedState) :
    (makeAssignmentBacktrack opt course sec st).1.schedule =
      st.schedule ++ opt.pattern.map
        (fun s => mkScheduleEntry course sec s opt.room opt.faculty
          (backtrackComponentType course)) := by
  simp [makeAssignmentBacktrack, foldl_recordSessionData_schedule]

theorem getTimePatterns3_eq (ct : ComponentType) (cnt : Nat) :
    getTimePatterns 3 ct cnt = twoSessionPatterns (rotatedDayPairings cnt) 25 90 := by
  unfold getTimePatterns
  norm_num [shouldSplit]

theorem getTimePatterns6_eq (ct : ComponentType) (cnt : Nat) :
    getTimePatterns 6 ct cnt = twoSessionPatterns (rotatedDayPairings cnt) 22 180 := by
  unfold getTimePatterns
  norm_num [shouldSplit]

theorem getTimePatterns3_session_end (ct : ComponentType) (cnt : Nat) :
    ∀ p ∈ getTimePatterns 3 ct cnt, ∀ s ∈ p, s.end_time = s.start_time + 90 := by
  intro p hp s hs
  rw [getTimePatterns3_eq] at hp
  obtain ⟨dp, st, _, hst, _, rfl⟩ := mem_twoSessionPatterns.1 hp
  have hlt : st + 90 < 1440 := by
    have hb : ∀ x ∈ timeSlots.take 25, x + 90 < 1440 := by decide
    exact hb st hst
  have hadd : addMinutesToTime st 90 = st + 90 := Nat.mod_eq_of_lt hlt
  rcases List.mem_cons.1 hs with rfl | hs2
  · simpa using hadd
  · rcases List.mem_singleton.1 hs2 with rfl
    simpa using hadd

theorem getTimePatterns6_session_end (ct : ComponentType) (cnt : Nat) :
    ∀ p ∈ getTimePatterns 6 ct cnt, ∀ s ∈ p, s.end_time = s.start_time + 180 := by
  intro p hp s hs
  rw [getTimePatterns6_eq] at hp
  obtain ⟨dp, st, _, hst, _, rfl⟩ := mem_twoSessionPatterns.1 hp
  have hlt : st + 180 < 1440 := by
    have hb : ∀ x ∈ timeSlots.take 22, x + 180 < 1440 := by decide
    exact hb st hst
  have hadd : addMinutesToTime st 180 = st + 180 := Nat.mod_eq_of_lt hlt
  rcases List.mem_cons.1 hs with rfl | hs2
  · simpa using hadd
  · rcases List.mem_singleton.1 hs2 with rfl
    simpa using hadd

/-- The first-success search of `_schedule_course_component` returns a pattern
from the generated list, a faculty and room from the candidate pools, and a
combination accepted by `_can_assign_pattern`. -/
theorem findAssignmentOption_eq_some {time_patterns : List Pattern}
    {suitable_faculty : List FacultyMember} {suitable_rooms : List Room}
    {section_name : String} {st : SchedState} {allow_conflicts : Bool}
    {p : Pattern} {f r : String}
    (h : findAssignmentOption time_patterns suitable_faculty suitable_rooms
      section_name st allow_conflicts = some (p, f, r)) :
    p ∈ time_patterns ∧ f ∈ suitable_faculty.map FacultyMember.faculty_name ∧
    r ∈ suitable_rooms.map Room.room_name ∧
    canAssignPattern p f r section_name st.faculty_schedule st.room_schedule
      st.section_schedule allow_conflicts = true := by
  unfold findAssignmentOption at h
  obtain ⟨pat, hpat, h2⟩ := List.exists_of_findSome?_eq_some h
  obtain ⟨fac, hfac, h3⟩ := List.exists_of_findSome?_eq_some h2
  obtain ⟨room, hroom, h4⟩ := List.exists_of_findSome?_eq_some h3
  split at h4
  · have he := Option.some_inj.1 h4
    have hp2 : pat = p := congrArg Prod.fst he
    have hf2 : fac.faculty_name = f := congrArg (fun t => t.2.1) he
    have hr2 : room.room_name = r := congrArg (fun t => t.2.2) he
    subst hp2
    subst hf2
    subst hr2
    exact ⟨hpat, List.mem_map_of_mem _ hfac, List.mem_map_of_mem _ hroom,
      by assumption⟩
  · cases h4

theorem scheduleCourseComponent_entries (course : Course) (sec : SectionRow)
    (ct : ComponentType) (hours : Nat) (suitable_faculty : List FacultyMember)
    (suitable_rooms : List Room) (allow_conflicts : Bool) (st : SchedState) :
    ∀ e ∈ (scheduleCourseComponent course sec ct hours suitable_faculty
        suitable_rooms allow_conflicts st).2.schedule,
      e ∈ st.schedule ∨
      (e.course_type = ct ∧ e.room ∈ suitable_rooms.map Room.room_name ∧
        ∃ p ∈ getTimePatterns hours ct st.day_pairing_counter, ∃ s ∈ p,
          e.start_time = s.start_time ∧ e.end_time = s.end_time) := by
  intro e he
  unfold scheduleCourseComponent at he
  dsimp only at he
  split at he
  next p2 f2 r2 heq =>
    obtain ⟨hp, _, hr, _⟩ := findAssignmentOption_eq_some heq
    have he2 : e ∈ (makeAssignment p2 course sec f2 r2 ct st).schedule := he
    rw [makeAssignment_schedule] at he2
    rcases List.mem_append.1 he2 with hin | hin
    · exact Or.inl hin
    · right
      obtain ⟨s, hs, rfl⟩ := List.mem_map.1 hin
      exact ⟨rfl, hr, p2, hp, s, hs, rfl, rfl⟩
  next heq => exact Or.inl he

/-- C4 amended: a 6-hour Both course is split by the greedy assigner into a
3-hour Lecture component in a Lecture-type room and a 3-hour Lab component in
a Lab-type room (entries tagged accordingly, 90-minute sessions), whereas the
backtracking assigner schedules it as one 6-hour obligation: all its candidate
options use Lecture-type rooms and full-6-hour patterns (180-minute sessions),
and its recorded entries are tagged Both. -/
theorem both_course_split_greedy_only (course : Course)
    (hty : course.course_type = CourseType.Both)
    (hh : course.hours_per_week = 6) (sec : SectionRow)
    (faculty : List FacultyMember) (rooms : List Room) (allow_conflicts : Bool)
    (st : SchedState) :
    course.hours_per_week / 2 = 3 ∧
    course.hours_per_week - course.hours_per_week / 2 = 3 ∧
    (∀ e ∈ (assignCourseToSection course sec faculty rooms allow_conflicts
        st).2.schedule,
      e ∈ st.schedule ∨
      (e.course_type = ComponentType.Lecture ∧
        e.room ∈ (rooms.filter
          (fun r => r.room_type = RoomType.Lecture)).map Room.room_name ∧
        e.end_time = e.start_time + 90) ∨
      (e.course_type = ComponentType.Lab ∧
        e.room ∈ (rooms.filter
          (fun r => r.room_type = RoomType.Lab)).map Room.room_name ∧
        e.end_time = e.start_time + 90)) ∧
    (∀ opt ∈ getPossibleAssignments course sec faculty rooms st allow_conflicts,
      opt.room ∈ (rooms.filter
        (fun r => r.room_type = RoomType.Lecture)).map Room.room_name ∧
      opt.pattern ∈ getTimePatterns 6 ComponentType.Lecture
        st.day_pairing_counter ∧
      ∀ s ∈ opt.pattern, s.end_time = s.start_time + 180) ∧
    (∀ opt : AssignmentOption,
      (makeAssignmentBacktrack opt course sec st).1.schedule =
        st.schedule ++ opt.pattern.map (fun s =>
          mkScheduleEntry course sec s opt.room opt.faculty
            ComponentType.Both)) := by
  have h3a : course.hours_per_week / 2 = 3 := by rw [hh]
  have h3b : course.hours_per_week - course.hours_per_week / 2 = 3 := by rw [hh]
  refine ⟨h3a, h3b, ?_, ?_, ?_⟩
  · intro e he
    have heq : assignCourseToSection course sec faculty rooms allow_conflicts
        st =
        if (findSuitableFaculty faculty course).isEmpty then (false, st)
        else if (rooms.filter
            (fun r => r.room_type = RoomType.Lecture)).isEmpty then (false, st)
        else scheduleLectureLabCourse course sec
          (findSuitableFaculty faculty course) rooms allow_conflicts st := by
      unfold assignCourseToSection
      rw [hty]
      simp [courseTypeContainsLab]
    rw [heq] at he
    split at he
    · exact Or.inl he
    · split at he
      · exact Or.inl he
      · unfold scheduleLectureLabCourse at he
        dsimp only at he
        rw [h3b, h3a] at he
        split at he
        · rcases scheduleCourseComponent_entries course sec
              ComponentType.Lecture 3 _ _ allow_conflicts st e he with
              hin | hnew
          · exact Or.inl hin
          · obtain ⟨hct, hrm, p, hpmem, s, hsmem, hst, hend⟩ := hnew
            refine Or.inr (Or.inl ⟨hct, hrm, ?_⟩)
            rw [hst, hend]
            exact getTimePatterns3_session_end ComponentType.Lecture _ p hpmem
              s hsmem
        · rcases scheduleCourseComponent_entries course sec ComponentType.Lab 3
              _ _ allow_conflicts _ e he with hin2 | hnew
          · rcases scheduleCourseComponent_entries course sec
                ComponentType.Lecture 3 _ _ allow_conflicts st e hin2 with
                hin | hnew
            · exact Or.inl hin
            · obtain ⟨hct, hrm, p, hpmem, s, hsmem, hst, hend⟩ := hnew
              refine Or.inr (Or.inl ⟨hct, hrm, ?_⟩)
              rw [hst, hend]
              exact getTimePatterns3_session_end ComponentType.Lecture _ p
                hpmem s hsmem
          · obtain ⟨hct, hrm, p, hpmem, s, hsmem, hst, hend⟩ := hnew
            refine Or.inr (Or.inr ⟨hct, hrm, ?_⟩)
            rw [hst, hend]
            exact getTimePatterns3_session_end ComponentType.Lab _ p hpmem s
              hsmem
  · intro opt hopt
    unfold getPossibleAssignments at hopt
    rw [hty] at hopt
    simp only [courseTypeContainsLab] at hopt
    rw [mem_stableSortBy] at hopt
    simp only [List.mem_flatMap, List.mem_filterMap] at hopt
    obtain ⟨p, hp, f, _, r, hr, hmk⟩ := hopt
    rw [hh] at hp
    split at hmk
    · have he := Option.some_inj.1 hmk
      subst he
      refine ⟨List.mem_map_of_mem _ (by simpa using hr), by simpa using hp, ?_⟩
      intro s hs
      exact getTimePatterns6_session_end ComponentType.Lecture _ p
        (by simpa using hp) s hs
    · cases hmk
  · intro opt
    rw [makeAssignmentBacktrack_schedule]
    have hbt : backtrackComponentType course = ComponentType.Both := by
      unfold backtrackComponentType
      rw [hty]
      simp
    rw [hbt]

/-- The option recorded and immediately unrecorded in the C7 counterexample
(Monday 09:00–10:00, disjoint from the prior booking). -/
def optionMonday9 : AssignmentOption :=
  { pattern := [{ day := Day.monday, start_time := 540, end_time := 600,
                  duration := 60 }],
    faculty := "F", room := "R" }

/-- Witness for `both_course_split_greedy_only`: the backtracking record of a
concrete option for the fixture Both course appends Both-tagged entries. -/
theorem both_course_split_greedy_only_witness :
    (makeAssignmentBacktrack optionMonday9 bothCourse6h sectionS1
        smallState).1.schedule =
      smallState.schedule ++ optionMonday9.pattern.map (fun s =>
        mkScheduleEntry bothCourse6h sectionS1 s optionMonday9.room
          optionMonday9.faculty ComponentType.Both) :=
  (both_course_split_greedy_only bothCourse6h rfl rfl sectionS1 [facultyF]
    [roomLectureA, roomLabA] false smallState).2.2.2.2 optionMonday9

/-! ### C7 amended: record/unrecord roundtrip on fresh ledgers -/

theorem dictFind_dictSet_self {α β : Type} [DecidableEq α] (k : α) (v : β) :
    ∀ l : List (α × β), dictFind (dictSet l k v) k = some v := by
  intro l
  induction l with
  | nil => simp [dictSet, dictFind]
  | cons p rest ih =>
      obtain ⟨k2, w⟩ := p
      by_cases hk : k2 = k
      · subst hk
        simp [dictSet, dictFind]
      · simp [dictSet, dictFind, hk, ih]

theorem dictFind_dictSet_ne {α β : Type} [DecidableEq α] {k k2 : α}
    (hne : k ≠ k2) (v : β) :
    ∀ l : List (α × β), dictFind (dictSet l k v) k2 = dictFind l k2 := by
  intro l
  induction l with
  | nil => simp [dictSet, dictFind, hne]
  | cons p rest ih =>
      obtain ⟨k3, w⟩ := p
      by_cases hk : k3 = k
      · subst hk
        simp [dictSet, dictFind, hne]
      · simp [dictSet, dictFind, hk, ih]

theorem dictSet_dictSet_self {α β : Type} [DecidableEq α] (k : α) (v w : β) :
    ∀ l : List (α × β), dictSet (dictSet l k v) k w = dictSet l k w := by
  intro l
  induction l with
  | nil => simp [dictSet]
  | cons p rest ih =>
      obtain ⟨k2, u⟩ := p
      by_cases hk : k2 = k
      · subst hk
        simp [dictSet]
      · simp [dictSet, hk, ih]

theorem dictSet_eq_of_find {α β : Type} [DecidableEq α] {k : α} {v : β} :
    ∀ {l : List (α × β)}, dictFind l k = some v → dictSet l k v = l := by
  intro l
  induction l with
  | nil => intro h; cases h
  | cons p rest ih =>
      obtain ⟨k2, w⟩ := p
      intro h
      by_cases hk : k2 = k
      · subst hk
        simp [dictFind] at h
        simp [dictSet, h]
      · simp [dictFind, hk] at h
        simp [dictSet, hk, ih h]

theorem dictDel_dictSet_of_none {α β : Type} [DecidableEq α] {k : α} (v : β) :
    ∀ {l : List (α × β)}, dictFind l k = none → dictDel (dictSet l k v) k = l := by
  intro l
  induction l with
  | nil => intro _; simp [dictSet, dictDel]
  | cons p rest ih =>
      obtain ⟨k2, w⟩ := p
      intro h
      by_cases hk : k2 = k
      · subst hk
        simp [dictFind] at h
      · simp [dictFind, hk] at h
        simp [dictSet, dictDel, hk, ih h]

theorem dictDel_dictSet_ne {α β : Type} [DecidableEq α] {k1 k2 : α}
    (hne : k1 ≠ k2) (w : β) :
    ∀ l : List (α × β), dictDel (dictSet l k2 w) k1 = dictSet (dictDel l k1) k2 w := by
  intro l
  induction l with
  | nil => simp [dictSet, dictDel, Ne.symm hne]
  | cons p rest ih =>
      obtain ⟨k3, u⟩ := p
      by_cases h2 : k3 = k2
      · subst h2
        by_cases h1 : k3 = k1
        · exact absurd h1.symm (by simpa [eq_comm] using hne)
        · simp [dictSet, dictDel, h1, Ne.symm hne]
      · by_cases h1 : k3 = k1
        · subst h1
          simp [dictSet, dictDel, h2]
        · simp [dictSet, dictDel, h1, h2, ih]

theorem dictFind_dictDel_ne {α β : Type} [DecidableEq α] {k1 k2 : α}
    (hne : k1 ≠ k2) :
    ∀ l : List (α × β), dictFind (dictDel l k1) k2 = dictFind l k2 := by
  intro l
  induction l with
  | nil => simp [dictDel]
  | cons p rest ih =>
      obtain ⟨k3, u⟩ := p
      by_cases h1 : k3 = k1
      · subst h1
        simp [dictDel, dictFind, hne]
      · by_cases h2 : k3 = k2
        · subst h2
          simp [dictDel, dictFind, h1]
        · simp [dictDel, dictFind, h1, h2, ih]

theorem dictSet_comm_of_present {α β : Type} [DecidableEq α] {k1 k2 : α}
    (hne : k1 ≠ k2) (u w : β) :
    ∀ l : List (α × β), (dictFind l k1).isSome →
      dictSet (dictSet l k2 w) k1 u = dictSet (dictSet l k1 u) k2 w := by
  intro l
  induction l with
  | nil => intro h; simp [dictFind] at h
  | cons p rest ih =>
      obtain ⟨k3, v⟩ := p
      intro h
      by_cases h1 : k3 = k1
      · subst h1
        simp [dictSet, Ne.symm hne, hne]
      · by_cases h2 : k3 = k2
        · subst h2
          simp [dictFind, h1] at h
          simp [dictSet, h1, hne]
        · simp [dictFind, h1] at h
          simp [dictSet, h1, h2, ih h]

/-- The inner (per-resource) effect of `ledgerAppend`: book one session under
one day of a `DaySchedule`. -/
def dayAppend (ds : DaySchedule) (d : Day) (si : SessionInfo) : DaySchedule :=
  dictSet ds d ((dictFind ds d).getD [] ++ [si])

theorem ledgerAppend_eq_dictSet (L : Ledger) (name : String) (d : Day)
    (si : SessionInfo) :
    ledgerAppend L name d si =
      dictSet L name (dayAppend ((dictFind L name).getD []) d si) := rfl

/-- Undoing right after booking restores the day map, provided the booked
session is removed by the filter, everything already booked is kept, and no
present day-list is empty. -/
theorem undoFilterDay_dayAppend (keep : SessionInfo → Bool) (ds : DaySchedule)
    (d : Day) (si : SessionInfo) (hk : keep si = false)
    (hfresh : ∀ x ∈ (dictFind ds d).getD [], keep x = true)
    (hwf : dictFind ds d ≠ some []) :
    undoFilterDay (dayAppend ds d si) d keep = ds := by
  rcases hfind : dictFind ds d with _ | l
  · unfold dayAppend undoFilterDay
    rw [hfind]
    rw [dictFind_dictSet_self]
    simp [List.filter, hk, dictDel_dictSet_of_none _ hfind]
  · have hl : l ≠ [] := by
      intro hcon
      rw [hcon] at hfind
      exact hwf hfind
    unfold dayAppend undoFilterDay
    rw [hfind]
    rw [dictFind_dictSet_self]
    have hfl : (l ++ [si]).filter keep = l := by
      rw [List.filter_append]
      have h1 : l.filter keep = l := List.filter_eq_self.2 (by
        intro a ha
        exact hfresh a (by simp [hfind, ha]))
      simp [List.filter, hk, h1]
    simp only [Option.getD_some, hfl]
    rw [if_neg (by simpa using hl)]
    rw [dictSet_dictSet_self]
    exact dictSet_eq_of_find hfind

/-- Undoing on a fresh day map is a no-op. -/
theorem undoFilterDay_fresh (keep : SessionInfo → Bool) (ds : DaySchedule)
    (d : Day) (hfresh : ∀ x ∈ (dictFind ds d).getD [], keep x = true)
    (hwf : dictFind ds d ≠ some []) :
    undoFilterDay ds d keep = ds := by
  rcases hfind : dictFind ds d with _ | l
  · unfold undoFilterDay
    rw [hfind]
  · have hl : l ≠ [] := by
      intro hcon
      rw [hcon] at hfind
      exact hwf hfind
    unfold undoFilterDay
    rw [hfind]
    have h1 : l.filter keep = l := List.filter_eq_self.2 (by
      intro a ha
      exact hfresh a (by simp [hfind, ha]))
    simp only [h1]
    rw [if_neg (by simpa using hl)]
    exact dictSet_eq_of_find hfind

/-- Booking on one day and undoing on a different day commute. -/
theorem undoFilterDay_dayAppend_ne (keep : SessionInfo → Bool) (ds : DaySchedule)
    {d1 d2 : Day} (hne : d2 ≠ d1) (si : SessionInfo) :
    undoFilterDay (dayAppend ds d2 si) d1 keep =
      dayAppend (undoFilterDay ds d1 keep) d2 si := by
  unfold undoFilterDay dayAppend
  rw [dictFind_dictSet_ne hne]
  rcases hfind : dictFind ds d1 with _ | l
  · rfl
  · rcases hflt : l.filter keep with _ | ⟨x, xs⟩
    · simp only [hflt, List.isEmpty_nil, if_true]
      rw [dictFind_dictDel_ne (Ne.symm hne)]
      exact dictDel_dictSet_ne (Ne.symm hne) _ ds
    · simp only [hflt, List.isEmpty_cons, Bool.false_eq_true, if_false]
      rw [dictFind_dictSet_ne (Ne.symm hne)]
      exact dictSet_comm_of_present (Ne.symm hne) _ _ ds (by simp [hfind])

/-- Two bookings on the same day are both removed by one undo pass. -/
theorem undoFilterDay_dayAppend_twice (keep : SessionInfo → Bool)
    (ds : DaySchedule) (d : Day) (si1 si2 : SessionInfo)
    (hk1 : keep si1 = false) (hk2 : keep si2 = false)
    (hfresh : ∀ x ∈ (dictFind ds d).getD [], keep x = true)
    (hwf : dictFind ds d ≠ some []) :
    undoFilterDay (dayAppend (dayAppend ds d si1) d si2) d keep = ds := by
  have happ : dayAppend (dayAppend ds d si1) d si2 =
      dictSet ds d ((dictFind ds d).getD [] ++ [si1, si2]) := by
    unfold dayAppend
    rw [dictFind_dictSet_self]
    rw [dictSet_dictSet_self]
    simp
  rw [happ]
  rcases hfind : dictFind ds d with _ | l
  · unfold undoFilterDay
    rw [dictFind_dictSet_self]
    have hf2 : [si1, si2].filter keep = [] := by
      simp [List.filter, hk1, hk2]
    simp only [Option.getD_none, List.nil_append, hf2, List.isEmpty_nil,
      if_true]
    exact dictDel_dictSet_of_none _ hfind
  · have hl : l ≠ [] := by
      intro hcon
      rw [hcon] at hfind
      exact hwf hfind
    unfold undoFilterDay
    rw [dictFind_dictSet_self]
    have hfl : ((some l).getD [] ++ [si1, si2]).filter keep = l := by
      rw [Option.getD_some, List.filter_append]
      have h1 : l.filter keep = l := List.filter_eq_self.2 (by
        intro a ha
        exact hfresh a (by simp [hfind, ha]))
      simp [List.filter, hk1, hk2, h1]
    simp only [hfl]
    rw [if_neg (by simpa using hl)]
    rw [dictSet_dictSet_self]
    exact dictSet_eq_of_find hfind

/-- Record-then-undo is the identity on a fresh, well-formed day map, for the
one- or two-session patterns the generator produces. -/
theorem day_roundtrip (keep : SessionInfo → Bool) (mkSi : Session → SessionInfo)
    (pattern : Pattern) (hlen : pattern.length ≤ 2) (ds0 : DaySchedule)
    (hwf : ∀ d, dictFind ds0 d ≠ some [])
    (hfresh : ∀ s ∈ pattern, ∀ x ∈ (dictFind ds0 s.day).getD [], keep x = true)
    (hmatch : ∀ s ∈ pattern, keep (mkSi s) = false) :
    pattern.foldl (fun ds s => undoFilterDay ds s.day keep)
      (pattern.foldl (fun ds s => dayAppend ds s.day (mkSi s)) ds0) = ds0 := by
  match pattern, hlen with
  | [], _ => rfl
  | [s], _ =>
      simp only [List.foldl_cons, List.foldl_nil]
      exact undoFilterDay_dayAppend keep ds0 s.day (mkSi s)
        (hmatch s (by simp)) (hfresh s (by simp)) (hwf s.day)
  | [s1, s2], _ =>
      simp only [List.foldl_cons, List.foldl_nil]
      by_cases hd : s2.day = s1.day
      · rw [hd]
        rw [undoFilterDay_dayAppend_twice keep ds0 s1.day (mkSi s1) (mkSi s2)
          (hmatch s1 (by simp)) (hmatch s2 (by simp))
          (hfresh s1 (by simp)) (hwf s1.day)]
        exact undoFilterDay_fresh keep ds0 s1.day (hfresh s1 (by simp))
          (hwf s1.day)
      · rw [undoFilterDay_dayAppend_ne keep _ hd (mkSi s2)]
        rw [undoFilterDay_dayAppend keep ds0 s1.day (mkSi s1)
          (hmatch s1 (by simp)) (hfresh s1 (by simp)) (hwf s1.day)]
        exact undoFilterDay_dayAppend keep ds0 s2.day (mkSi s2)
          (hmatch s2 (by simp)) (hfresh s2 (by simp)) (hwf s2.day)

/-- Appending through `ledgerAppend` with a present name factors through the
inner day map. -/
theorem foldl_ledgerAppend_eq (name : String) (mkSi : Session → SessionInfo) :
    ∀ (pattern : Pattern) (L : Ledger) (ds : DaySchedule),
      dictFind L name = some ds →
      pattern.foldl (fun L2 s => ledgerAppend L2 name s.day (mkSi s)) L =
        dictSet L name
          (pattern.foldl (fun ds2 s => dayAppend ds2 s.day (mkSi s)) ds) := by
  intro pattern
  induction pattern with
  | nil => intro L ds h; exact (dictSet_eq_of_find h).symm
  | cons s rest ih =>
      intro L ds h
      simp only [List.foldl_cons]
      have h1 : ledgerAppend L name s.day (mkSi s) =
          dictSet L name (dayAppend ds s.day (mkSi s)) := by
        rw [ledgerAppend_eq_dictSet, h]
        rfl
      rw [h1]
      rw [ih (dictSet L name (dayAppend ds s.day (mkSi s)))
        (dayAppend ds s.day (mkSi s)) (dictFind_dictSet_self name _ L)]
      rw [dictSet_dictSet_self]

theorem undoLedgerDay_eq_dictSet {L : Ledger} {name : String} {ds : DaySchedule}
    (d : Day) (keep : SessionInfo → Bool) (h : dictFind L name = some ds) :
    undoLedgerDay L name d keep = dictSet L name (undoFilterDay ds d keep) := by
  unfold undoLedgerDay
  rw [h]

/-- Undoing through `undoLedgerDay` with a present name factors through the
inner day map. -/
theorem foldl_undoLedger_eq (name : String) (keep : SessionInfo → Bool) :
    ∀ (pattern : Pattern) (L : Ledger) (ds : DaySchedule),
      dictFind L name = some ds →
      pattern.foldl (fun L2 s => undoLedgerDay L2 name s.day keep) L =
        dictSet L name
          (pattern.foldl (fun ds2 s => undoFilterDay ds2 s.day keep) ds) := by
  intro pattern
  induction pattern with
  | nil => intro L ds h; exact (dictSet_eq_of_find h).symm
  | cons s rest ih =>
      intro L ds h
      simp only [List.foldl_cons]
      rw [undoLedgerDay_eq_dictSet s.day keep h]
      rw [ih (dictSet L name (undoFilterDay ds s.day keep))
        (undoFilterDay ds s.day keep) (dictFind_dictSet_self name _ L)]
      rw [dictSet_dictSet_self]

/-- The record loop of `_make_assignment_backtrack`, field by field. -/
theorem foldl_recordSessionData_state (course : Course) (sec : SectionRow)
    (faculty_name room_name : String) (ct : ComponentType) :
    ∀ (pattern : Pattern) (a : SchedState × List Nat),
      (pattern.foldl
          (fun (a : SchedState × List Nat) s =>
            let st2 := recordSession course sec faculty_name room_name ct a.1 s
            (st2, a.2 ++ [st2.schedule.length - 1]))
          a).1 =
        { schedule := a.1.schedule ++ pattern.map
            (fun s => mkScheduleEntry course sec s room_name faculty_name ct)
          faculty_schedule := pattern.foldl (fun L s => ledgerAppend L
            faculty_name s.day (mkSessionInfo course sec s)) a.1.faculty_schedule
          room_schedule := pattern.foldl (fun L s => ledgerAppend L room_name
            s.day (mkSessionInfo course sec s)) a.1.room_schedule
          section_schedule := pattern.foldl (fun L s => ledgerAppend L
            sec.section_name s.day (mkSessionInfo course sec s))
            a.1.section_schedule
          day_pairing_counter := a.1.day_pairing_counter } := by
  intro pattern
  induction pattern with
  | nil => intro a; simp
  | cons s rest ih =>
      intro a
      simp only [List.foldl_cons, List.map_cons]
      rw [ih]
      simp [recordSession]

/-- The undo loop of `_undo_assignment_backtrack`, field by field. -/
theorem foldl_undo_state (fac room secName : String)
    (keepFR keepS : SessionInfo → Bool) :
    ∀ (pattern : Pattern) (st : SchedState),
      pattern.foldl
        (fun a s =>
          { a with
            faculty_schedule := undoLedgerDay a.faculty_schedule fac s.day keepFR
            room_schedule := undoLedgerDay a.room_schedule room s.day keepFR
            section_schedule := undoLedgerDay a.section_schedule secName s.day
              keepS })
        st =
      { st with
        faculty_schedule := pattern.foldl
          (fun L s => undoLedgerDay L fac s.day keepFR) st.faculty_schedule
        room_schedule := pattern.foldl
          (fun L s => undoLedgerDay L room s.day keepFR) st.room_schedule
        section_schedule := pattern.foldl
          (fun L s => undoLedgerDay L secName s.day keepS)
          st.section_schedule } := by
  intro pattern
  induction pattern with
  | nil => intro st; simp
  | cons s rest ih =>
      intro st
      simp only [List.foldl_cons]
      rw [ih]

/-- Removing the freshly appended last element. -/
theorem popAt_append_last {α : Type} (base : List α) (x : α) :
    popAt (base ++ [x]) base.length = base := by
  unfold popAt
  rw [if_pos (by simp)]
  rw [List.take_left]
  rw [List.drop_eq_nil_of_le (by simp)]
  simp

/-- Popping the stored indices in reverse order removes exactly the appended
suffix. -/
theorem pop_range_append {α : Type} :
    ∀ (extra base : List α),
      ((List.range extra.length).map (fun i => base.length + i)).reverse.foldl
        popAt (base ++ extra) = base := by
  intro extra
  induction extra using List.reverseRecOn with
  | nil => intro base; simp
  | append_singleton ys y ih =>
      intro base
      rw [List.length_append, List.length_singleton, List.range_succ]
      rw [List.map_append, List.reverse_append]
      simp only [List.map_cons, List.map_nil, List.reverse_cons,
        List.reverse_nil, List.nil_append, List.foldl_cons]
      rw [← List.append_assoc]
      rw [show base.length + ys.length = (base ++ ys).length by simp]
      rw [List.singleton_append]
      rw [List.foldl_cons]
      rw [popAt_append_last]
      exact ih base

/-- The index list stored by `_make_assignment_backtrack`. -/
theorem foldl_recordSessionData_data (course : Course) (sec : SectionRow)
    (faculty_name room_name : String) (ct : ComponentType) :
    ∀ (pattern : Pattern) (a : SchedState × List Nat),
      (pattern.foldl
          (fun (a : SchedState × List Nat) s =>
            let st2 := recordSession course sec faculty_name room_name ct a.1 s
            (st2, a.2 ++ [st2.schedule.length - 1]))
          a).2 =
        a.2 ++ (List.range pattern.length).map
          (fun i => a.1.schedule.length + i) := by
  intro pattern
  induction pattern with
  | nil => intro a; simp
  | cons s rest ih =>
      intro a
      simp only [List.foldl_cons, List.length_cons]
      rw [ih]
      have hlen : (recordSession course sec faculty_name room_name ct a.1
          s).schedule.length - 1 = a.1.schedule.length := by
        simp [recordSession]
      have hlen2 : (recordSession course sec faculty_name room_name ct a.1
          s).schedule.length = a.1.schedule.length + 1 := by
        simp [recordSession]
      rw [hlen, hlen2]
      rw [List.range_succ_eq_map, List.map_cons, List.map_map]
      have hfn : ((fun i => a.1.schedule.length + i) ∘ Nat.succ) =
          (fun i => a.1.schedule.length + 1 + i) := by
        funext i
        simp [Function.comp]
        omega
      rw [hfn]
      simp

/-- C7 amended: for the one- or two-session patterns the generator produces,
`_make_assignment_backtrack` followed immediately by
`_undo_assignment_backtrack` on the same tuple restores the schedule list, all
three ledgers and the rotation counter exactly, provided the three resource
names are booked in their ledgers, no booked day-list is empty, and the
pre-record ledgers hold no session with this course code and section name (nor,
in the section ledger, this course code) on any pattern day. -/
theorem record_unrecord_roundtrip (opt : AssignmentOption) (course : Course)
    (sec : SectionRow) (st : SchedState) (hlen : opt.pattern.length ≤ 2)
    (fds rds sds : DaySchedule)
    (hfac : dictFind st.faculty_schedule opt.faculty = some fds)
    (hroom : dictFind st.room_schedule opt.room = some rds)
    (hsec : dictFind st.section_schedule sec.section_name = some sds)
    (hwf_f : ∀ d, dictFind fds d ≠ some [])
    (hwf_r : ∀ d, dictFind rds d ≠ some [])
    (hwf_s : ∀ d, dictFind sds d ≠ some [])
    (hfresh_f : ∀ s ∈ opt.pattern, ∀ si ∈ (dictFind fds s.day).getD [],
      ¬(si.course = course.course_code ∧ si.sectionName = sec.section_name))
    (hfresh_r : ∀ s ∈ opt.pattern, ∀ si ∈ (dictFind rds s.day).getD [],
      ¬(si.course = course.course_code ∧ si.sectionName = sec.section_name))
    (hfresh_s : ∀ s ∈ opt.pattern, ∀ si ∈ (dictFind sds s.day).getD [],
      si.course ≠ course.course_code) :
    undoAssignmentBacktrack opt course sec
      (makeAssignmentBacktrack opt course sec st).2
      (makeAssignmentBacktrack opt course sec st).1 = st := by
  have hstate := foldl_recordSessionData_state course sec opt.faculty opt.room
    (backtrackComponentType course) opt.pattern (st, [])
  have hdata := foldl_recordSessionData_data course sec opt.faculty opt.room
    (backtrackComponentType course) opt.pattern (st, [])
  unfold makeAssignmentBacktrack
  dsimp only
  rw [hstate, hdata]
  dsimp only
  unfold undoAssignmentBacktrack
  dsimp only
  rw [foldl_undo_state]
  have hsched : (((List.range opt.pattern.length).map
      (fun i => st.schedule.length + i)).reverse.foldl popAt
      (st.schedule ++ opt.pattern.map (fun s => mkScheduleEntry course sec s
        opt.room opt.faculty (backtrackComponentType course)))) =
      st.schedule := by
    rw [show opt.pattern.length = (opt.pattern.map (fun s =>
      mkScheduleEntry course sec s opt.room opt.faculty
        (backtrackComponentType course))).length by simp]
    exact pop_range_append _ st.schedule
  have hfacL : (opt.pattern.foldl
      (fun L s => undoLedgerDay L opt.faculty s.day
        (fun si => !(decide (si.course = course.course_code) &&
          decide (si.sectionName = sec.section_name))))
      (opt.pattern.foldl (fun L s => ledgerAppend L opt.faculty s.day
        (mkSessionInfo course sec s)) st.faculty_schedule)) =
      st.faculty_schedule := by
    rw [foldl_ledgerAppend_eq opt.faculty _ opt.pattern st.faculty_schedule
      fds hfac]
    rw [foldl_undoLedger_eq opt.faculty _ opt.pattern _ _
      (dictFind_dictSet_self opt.faculty _ st.faculty_schedule)]
    rw [day_roundtrip _ _ opt.pattern hlen fds hwf_f
      (by
        intro s hs x hx
        simpa using not_and_or.mp (hfresh_f s hs x hx))
      (by
        intro s _
        simp [mkSessionInfo])]
    rw [dictSet_dictSet_self]
    exact dictSet_eq_of_find hfac
  have hroomL : (opt.pattern.foldl
      (fun L s => undoLedgerDay L opt.room s.day
        (fun si => !(decide (si.course = course.course_code) &&
          decide (si.sectionName = sec.section_name))))
      (opt.pattern.foldl (fun L s => ledgerAppend L opt.room s.day
        (mkSessionInfo course sec s)) st.room_schedule)) =
      st.room_schedule := by
    rw [foldl_ledgerAppend_eq opt.room _ opt.pattern st.room_schedule rds hroom]
    rw [foldl_undoLedger_eq opt.room _ opt.pattern _ _
      (dictFind_dictSet_self opt.room _ st.room_schedule)]
    rw [day_roundtrip _ _ opt.pattern hlen rds hwf_r
      (by
        intro s hs x hx
        simpa using not_and_or.mp (hfresh_r s hs x hx))
      (by
        intro s _
        simp [mkSessionInfo])]
    rw [dictSet_dictSet_self]
    exact dictSet_eq_of_find hroom
  have hsecL : (opt.pattern.foldl
      (fun L s => undoLedgerDay L sec.section_name s.day
        (fun si => !(decide (si.course = course.course_code))))
      (opt.pattern.foldl (fun L s => ledgerAppend L sec.section_name s.day
        (mkSessionInfo course sec s)) st.section_schedule)) =
      st.section_schedule := by
    rw [foldl_ledgerAppend_eq sec.section_name _ opt.pattern
      st.section_schedule sds hsec]
    rw [foldl_undoLedger_eq sec.section_name _ opt.pattern _ _
      (dictFind_dictSet_self sec.section_name _ st.section_schedule)]
    rw [day_roundtrip _ _ opt.pattern hlen sds hwf_s
      (by
        intro s hs x hx
        simpa using hfresh_s s hs x hx)
      (by
        intro s _
        simp [mkSessionInfo])]
    rw [dictSet_dictSet_self]
    exact dictSet_eq_of_find hsec
  obtain ⟨sch, fsch, rsch, ssch, cnt⟩ := st
  simp only at hsched hfacL hroomL hsecL
  dsimp only
  simp only [SchedState.mk.injEq]
  exact ⟨hsched, hfacL, hroomL, hsecL, by omega⟩

/-! ### C1: duplicate section names defeat the no-overlap invariant -/

/-- The first entry greedy produces for `lecCourse2h` in the duplicate-section
counterexample. -/
def dupEntry1 : ScheduleEntry :=
  { course_code := "C1", course_title := "T", program := "P", year_level := 1,
    term := 1, sectionName := "S1", day := Day.monday, start_time := 420,
    end_time := 540, room := "LEC", faculty := "F",
    course_type := ComponentType.Lecture, students_count := 30 }

/-- The second, fully overlapping entry for the same section name. -/
def dupEntry2 : ScheduleEntry :=
  { dupEntry1 with room := "LEC2", faculty := "G" }

/-- C1 counterexample: with two sections of the same name (conflicts
disallowed), `_greedy_scheduling` resets `section_schedule[section_name]` when
it reaches the second section, and produces two entries with the same section
name, same day and identical overlapping times. -/
theorem greedy_duplicate_section_overlap :
    (greedyScheduling [lecCourse2h] [roomLectureA, roomLectureB]
        [facultyF, facultyG] [sectionS1, sectionS1] false 0).state.schedule =
      [dupEntry1, dupEntry2] ∧
    dupEntry1.sectionName = dupEntry2.sectionName ∧
    dupEntry1.day = dupEntry2.day ∧
    timesOverlap dupEntry1.start_time dupEntry1.end_time dupEntry2.start_time
      dupEntry2.end_time = true := by
  decide

/-! ### C7: unrecord removes too much when the ledgers already hold the pair -/

/-- A pre-existing booking for the same (course, section) pair on Monday. -/
def priorBooking : SessionInfo :=
  { start_time := 420, end_time := 480, course := "C1", sectionName := "S1" }

/-- A state whose faculty ledger already holds `priorBooking`. -/
def stateWithPrior : SchedState :=
  { schedule := [], faculty_schedule := [("F", [(Day.monday, [priorBooking])])],
    room_schedule := [("R", [])], section_schedule := [("S1", [])],
    day_pairing_counter := 5 }

/-- C7 counterexample: `_undo_assignment_backtrack` filters by (course,
section), so undoing right after recording also deletes the pre-existing
Monday booking of the same pair — the state is not restored. -/
theorem record_unrecord_not_exact_restore :
    undoAssignmentBacktrack optionMonday9 lecCourse2h sectionS1
        (makeAssignmentBacktrack optionMonday9 lecCourse2h sectionS1
          stateWithPrior).2
        (makeAssignmentBacktrack optionMonday9 lecCourse2h sectionS1
          stateWithPrior).1 ≠ stateWithPrior ∧
    (undoAssignmentBacktrack optionMonday9 lecCourse2h sectionS1
        (makeAssignmentBacktrack optionMonday9 lecCourse2h sectionS1
          stateWithPrior).2
        (makeAssignmentBacktrack optionMonday9 lecCourse2h sectionS1
          stateWithPrior).1).faculty_schedule = [("F", [])] := by
  decide

/-- Witness for `record_unrecord_roundtrip`: on a small fresh state the record
and immediate unrecord of a concrete option restore the state exactly. -/
theorem record_unrecord_roundtrip_witness :
    undoAssignmentBacktrack optionMonday9 lecCourse2h sectionS1
      (makeAssignmentBacktrack optionMonday9 lecCourse2h sectionS1 smallState).2
      (makeAssignmentBacktrack optionMonday9 lecCourse2h sectionS1
        smallState).1 = smallState := by
  refine record_unrecord_roundtrip optionMonday9 lecCourse2h sectionS1 smallState
    (by decide) ([] : DaySchedule) ([] : DaySchedule) ([] : DaySchedule)
    (by decide) (by decide) (by decide)
    (fun d => by cases d <;> decide) (fun d => by cases d <;> decide)
    (fun d => by cases d <;> decide) ?_ ?_ ?_
  all_goals intro s _ si hsi
  all_goals simp [dictFind] at hsi

/-! ### C1 (amended): with distinct section names the greedy assigner never
books overlapping sessions on a shared resource -/

/-- Overlap is symmetric in the two intervals. -/
theorem timesOverlap_comm (a b c d : Time) :
    timesOverlap a b c d = timesOverlap c d a b := by
  simp [timesOverlap, Bool.or_comm]

/-- The booked `session_info` record corresponding to a schedule entry. -/
def entrySession (e : ScheduleEntry) : SessionInfo :=
  { start_time := e.start_time, end_time := e.end_time,
    course := e.course_code, sectionName := e.sectionName }

/-- The no-conflict property claimed of greedy output: two entries sharing a
room, a faculty member or a section never hold overlapping time intervals on
the same day. -/
def entryNoOverlap (e1 e2 : ScheduleEntry) : Prop :=
  (e1.room = e2.room ∨ e1.faculty = e2.faculty ∨ e1.sectionName = e2.sectionName) →
  e1.day = e2.day →
  timesOverlap e1.start_time e1.end_time e2.start_time e2.end_time = false

/-- Booking a session changes only the booked name and day of a ledger. -/
theorem ledgerSessions_append_self (L : Ledger) (n : String) (d : Day)
    (si : SessionInfo) :
    ledgerSessions (ledgerAppend L n d si) n d = ledgerSessions L n d ++ [si] := by
  unfold ledgerSessions ledgerAppend
  rw [dictFind_dictSet_self]
  simp only [Option.getD_some]
  rw [dictFind_dictSet_self]
  simp

theorem ledgerSessions_append_ne_name {n n' : String} (hne : n' ≠ n)
    (L : Ledger) (d d' : Day) (si : SessionInfo) :
    ledgerSessions (ledgerAppend L n d si) n' d' = ledgerSessions L n' d' := by
  unfold ledgerSessions ledgerAppend
  rw [dictFind_dictSet_ne (Ne.symm hne)]

theorem ledgerSessions_append_ne_day {d d' : Day} (hne : d' ≠ d)
    (L : Ledger) (n n' : String) (si : SessionInfo) :
    ledgerSessions (ledgerAppend L n d si) n' d' = ledgerSessions L n' d' := by
  by_cases hn : n' = n
  · subst hn
    unfold ledgerSessions ledgerAppend
    rw [dictFind_dictSet_self]
    simp only [Option.getD_some]
    rw [dictFind_dictSet_ne (Ne.symm hne)]
  · exact ledgerSessions_append_ne_name hn L d d' si

/-- Booking only ever extends the sessions visible under any name and day. -/
theorem ledgerSessions_append_mono (L : Ledger) (n : String) (d : Day)
    (si : SessionInfo) (n' : String) (d' : Day) :
    ∀ x ∈ ledgerSessions L n' d', x ∈ ledgerSessions (ledgerAppend L n d si) n' d' := by
  intro x hx
  by_cases hn : n' = n
  · subst hn
    by_cases hd : d' = d
    · subst hd
      rw [ledgerSessions_append_self]
      exact List.mem_append_left _ hx
    · rw [ledgerSessions_append_ne_day hd]
      exact hx
  · rw [ledgerSessions_append_ne_name hn]
    exact hx

/-- Every base day pairing pairs two distinct days. -/
theorem baseDayPairings_ne : ∀ p ∈ baseDayPairings, p.1 ≠ p.2 := by decide

/-- Rotation preserves the distinct-day property of the pairings. -/
theorem rotatedDayPairings_ne (c : Nat) :
    ∀ p ∈ rotatedDayPairings c, p.1 ≠ p.2 := by
  intro p hp
  unfold rotatedDayPairings at hp
  rcases List.mem_append.1 hp with h | h
  · exact baseDayPairings_ne p (List.drop_subset _ _ h)
  · exact baseDayPairings_ne p (List.take_subset _ _ h)

/-- The sessions of any generated pattern lie on pairwise distinct days. -/
theorem getTimePatterns_days_pairwise (hours : Nat) (ct : ComponentType)
    (c : Nat) :
    ∀ p ∈ getTimePatterns hours ct c,
      p.Pairwise (fun s1 s2 => s1.day ≠ s2.day) := by
  intro p hp
  unfold getTimePatterns at hp
  split_ifs at hp
  · obtain ⟨day, st, _, _, _, rfl⟩ := mem_singleSessionPatterns.1 hp
    simp
  all_goals
    obtain ⟨dp, st, hdp, _, _, rfl⟩ := mem_twoSessionPatterns.1 hp
  all_goals
    refine List.Pairwise.cons ?_ (List.pairwise_singleton _ _)
  all_goals
    intro s hs
  all_goals
    rcases List.mem_singleton.1 hs with rfl
  all_goals
    exact rotatedDayPairings_ne c dp hdp

/-- With conflicts disallowed, a pattern is accepted exactly when each of its
sessions is clear of all three ledgers. -/
theorem canAssignPattern_eq_true {p : Pattern} {fn rn sn : String}
    {F R S : Ledger} :
    canAssignPattern p fn rn sn F R S false = true ↔
      ∀ s ∈ p,
        sessionConflictsWith (ledgerSessions F fn s.day)
          s.start_time s.end_time = false ∧
        sessionConflictsWith (ledgerSessions R rn s.day)
          s.start_time s.end_time = false ∧
        sessionConflictsWith (ledgerSessions S sn s.day)
          s.start_time s.end_time = false := by
  simp [canAssignPattern, List.all_eq_true, Bool.not_eq_true', and_assoc]

/-- A clear check means no booked session on the resource overlaps. -/
theorem sessionConflictsWith_eq_false {l : List SessionInfo} {a b : Time} :
    sessionConflictsWith l a b = false ↔
      ∀ ex ∈ l, timesOverlap a b ex.start_time ex.end_time = false := by
  simp [sessionConflictsWith, List.any_eq_false, Bool.not_eq_true']

/-- Invariant threaded through one section's course loop: every scheduled
entry is booked in the faculty and room ledgers, every entry of the current
section is booked in its (reset) section ledger, and the output list is
conflict-free. -/
def GreedyInv (sec_name : String) (st : SchedState) : Prop :=
  (∀ e ∈ st.schedule,
    entrySession e ∈ ledgerSessions st.faculty_schedule e.faculty e.day) ∧
  (∀ e ∈ st.schedule,
    entrySession e ∈ ledgerSessions st.room_schedule e.room e.day) ∧
  (∀ e ∈ st.schedule, e.sectionName = sec_name →
    entrySession e ∈ ledgerSessions st.section_schedule sec_name e.day) ∧
  st.schedule.Pairwise entryNoOverlap

/-- Recording one session that is clear of all three ledgers preserves the
invariant. -/
theorem recordSession_inv (course : Course) (sec : SectionRow)
    (fn rn : String) (ct : ComponentType) (st : SchedState) (s : Session)
    (hinv : GreedyInv sec.section_name st)
    (hcf : sessionConflictsWith (ledgerSessions st.faculty_schedule fn s.day)
      s.start_time s.end_time = false)
    (hcr : sessionConflictsWith (ledgerSessions st.room_schedule rn s.day)
      s.start_time s.end_time = false)
    (hcs : sessionConflictsWith
      (ledgerSessions st.section_schedule sec.section_name s.day)
      s.start_time s.end_time = false) :
    GreedyInv sec.section_name (recordSession course sec fn rn ct st s) := by
  obtain ⟨h1, h2, h3, h4⟩ := hinv
  have hf := sessionConflictsWith_eq_false.1 hcf
  have hr := sessionConflictsWith_eq_false.1 hcr
  have hs := sessionConflictsWith_eq_false.1 hcs
  unfold GreedyInv recordSession
  dsimp only
  refine ⟨?_, ?_, ?_, ?_⟩
  · intro e' he'
    rcases List.mem_append.1 he' with hold | hnew
    · exact ledgerSessions_append_mono _ _ _ _ _ _ _ (h1 e' hold)
    · rcases List.mem_singleton.1 hnew with rfl
      show entrySession (mkScheduleEntry course sec s rn fn ct) ∈
        ledgerSessions (ledgerAppend st.faculty_schedule fn s.day
          (mkSessionInfo course sec s)) fn s.day
      rw [ledgerSessions_append_self]
      exact List.mem_append_right _ (List.mem_singleton.2 rfl)
  · intro e' he'
    rcases List.mem_append.1 he' with hold | hnew
    · exact ledgerSessions_append_mono _ _ _ _ _ _ _ (h2 e' hold)
    · rcases List.mem_singleton.1 hnew with rfl
      show entrySession (mkScheduleEntry course sec s rn fn ct) ∈
        ledgerSessions (ledgerAppend st.room_schedule rn s.day
          (mkSessionInfo course sec s)) rn s.day
      rw [ledgerSessions_append_self]
      exact List.mem_append_right _ (List.mem_singleton.2 rfl)
  · intro e' he' hname
    rcases List.mem_append.1 he' with hold | hnew
    · exact ledgerSessions_append_mono _ _ _ _ _ _ _ (h3 e' hold hname)
    · rcases List.mem_singleton.1 hnew with rfl
      show entrySession (mkScheduleEntry course sec s rn fn ct) ∈
        ledgerSessions (ledgerAppend st.section_schedule sec.section_name s.day
          (mkSessionInfo course sec s)) sec.section_name s.day
      rw [ledgerSessions_append_self]
      exact List.mem_append_right _ (List.mem_singleton.2 rfl)
  · rw [List.pairwise_append]
    refine ⟨h4, List.pairwise_singleton _ _, ?_⟩
    intro a ha b hb
    rcases List.mem_singleton.1 hb with rfl
    intro hshare hday
    have hday' : a.day = s.day := hday
    rw [show (mkScheduleEntry course sec s rn fn ct).start_time = s.start_time
        from rfl,
      show (mkScheduleEntry course sec s rn fn ct).end_time = s.end_time
        from rfl, timesOverlap_comm]
    rcases hshare with hsh | hsh | hsh
    · have hsh' : a.room = rn := hsh
      have hmem := h2 a ha
      rw [hsh', hday'] at hmem
      exact hr (entrySession a) hmem
    · have hsh' : a.faculty = fn := hsh
      have hmem := h1 a ha
      rw [hsh', hday'] at hmem
      exact hf (entrySession a) hmem
    · have hsh' : a.sectionName = sec.section_name := hsh
      have hmem := h3 a ha hsh'
      rw [hday'] at hmem
      exact hs (entrySession a) hmem

/-- Recording a whole accepted pattern preserves the invariant: later sessions
fall on different days from earlier ones, so their clearance checks remain
valid as the ledgers grow. -/
theorem foldl_record_inv (course : Course) (sec : SectionRow)
    (fn rn : String) (ct : ComponentType) :
    ∀ (pattern : Pattern) (st : SchedState),
      GreedyInv sec.section_name st →
      (∀ s ∈ pattern,
        sessionConflictsWith (ledgerSessions st.faculty_schedule fn s.day)
          s.start_time s.end_time = false ∧
        sessionConflictsWith (ledgerSessions st.room_schedule rn s.day)
          s.start_time s.end_time = false ∧
        sessionConflictsWith
          (ledgerSessions st.section_schedule sec.section_name s.day)
          s.start_time s.end_time = false) →
      pattern.Pairwise (fun s1 s2 => s1.day ≠ s2.day) →
      GreedyInv sec.section_name
        (pattern.foldl (recordSession course sec fn rn ct) st) := by
  intro pattern
  induction pattern with
  | nil =>
      intro st hinv _ _
      simpa using hinv
  | cons s rest ih =>
      intro st hinv hclear hpair
      rw [List.foldl_cons]
      obtain ⟨hcf, hcr, hcs⟩ := hclear s (List.mem_cons_self s rest)
      have hinv1 := recordSession_inv course sec fn rn ct st s hinv hcf hcr hcs
      refine ih _ hinv1 ?_ (List.Pairwise.of_cons hpair)
      intro s' hs'
      have hne : s'.day ≠ s.day :=
        Ne.symm ((List.pairwise_cons.1 hpair).1 s' hs')
      obtain ⟨hf', hr', hsc'⟩ := hclear s' (List.mem_cons_of_mem _ hs')
      refine ⟨?_, ?_, ?_⟩
      · rw [show (recordSession course sec fn rn ct st s).faculty_schedule =
            ledgerAppend st.faculty_schedule fn s.day
              (mkSessionInfo course sec s) from rfl,
          ledgerSessions_append_ne_day hne]
        exact hf'
      · rw [show (recordSession course sec fn rn ct st s).room_schedule =
            ledgerAppend st.room_schedule rn s.day
              (mkSessionInfo course sec s) from rfl,
          ledgerSessions_append_ne_day hne]
        exact hr'
      · rw [show (recordSession course sec fn rn ct st s).section_schedule =
            ledgerAppend st.section_schedule sec.section_name s.day
              (mkSessionInfo course sec s) from rfl,
          ledgerSessions_append_ne_day hne]
        exact hsc'

/-- `_make_assignment` with an accepted pattern preserves the invariant (the
counter bump does not touch the schedule or the ledgers). -/
theorem makeAssignment_inv (pattern : Pattern) (course : Course)
    (sec : SectionRow) (fn rn : String) (ct : ComponentType) (st : SchedState)
    (hinv : GreedyInv sec.section_name st)
    (hcan : canAssignPattern pattern fn rn sec.section_name st.faculty_schedule
      st.room_schedule st.section_schedule false = true)
    (hpair : pattern.Pairwise (fun s1 s2 => s1.day ≠ s2.day)) :
    GreedyInv sec.section_name
      (makeAssignment pattern course sec fn rn ct st) := by
  have h := foldl_record_inv course sec fn rn ct pattern st hinv
    (canAssignPattern_eq_true.1 hcan) hpair
  exact h

/-- `_schedule_course_component` with conflicts disallowed preserves the
invariant and only appends entries of the current section. -/
theorem scheduleCourseComponent_inv (course : Course) (sec : SectionRow)
    (ct : ComponentType) (hours : Nat) (sf : List FacultyMember)
    (sr : List Room) (st : SchedState)
    (hinv : GreedyInv sec.section_name st) :
    GreedyInv sec.section_name
      (scheduleCourseComponent course sec ct hours sf sr false st).2 ∧
    ∃ new, (scheduleCourseComponent course sec ct hours sf sr false st).2.schedule
        = st.schedule ++ new ∧
      ∀ e ∈ new, e.sectionName = sec.section_name := by
  unfold scheduleCourseComponent
  dsimp only
  split
  next p fn rn heq =>
    obtain ⟨hp, _, _, hcan⟩ := findAssignmentOption_eq_some heq
    have hpair := getTimePatterns_days_pairwise hours ct st.day_pairing_counter p hp
    refine ⟨makeAssignment_inv p course sec fn rn ct st hinv hcan hpair,
      p.map (fun s => mkScheduleEntry course sec s rn fn ct),
      makeAssignment_schedule p course sec fn rn ct st, ?_⟩
    intro e he
    obtain ⟨s, _, rfl⟩ := List.mem_map.1 he
    rfl
  next heq =>
    exact ⟨hinv, [], by simp, by simp⟩

/-- `_schedule_lecture_lab_course` preserves the invariant and only appends
entries of the current section. -/
theorem scheduleLectureLabCourse_inv (course : Course) (sec : SectionRow)
    (sf : List FacultyMember) (rooms : List Room) (st : SchedState)
    (hinv : GreedyInv sec.section_name st) :
    GreedyInv sec.section_name
      (scheduleLectureLabCourse course sec sf rooms false st).2 ∧
    ∃ new, (scheduleLectureLabCourse course sec sf rooms false st).2.schedule
        = st.schedule ++ new ∧
      ∀ e ∈ new, e.sectionName = sec.section_name := by
  unfold scheduleLectureLabCourse
  dsimp only
  obtain ⟨h1, new1, hs1, hn1⟩ := scheduleCourseComponent_inv course sec
    ComponentType.Lecture (course.hours_per_week / 2) sf
    (rooms.filter (fun r => r.room_type = RoomType.Lecture)) st hinv
  split
  · exact ⟨h1, new1, hs1, hn1⟩
  · obtain ⟨h2, new2, hs2, hn2⟩ := scheduleCourseComponent_inv course sec
      ComponentType.Lab
      (course.hours_per_week - course.hours_per_week / 2) sf
      (rooms.filter (fun r => r.room_type = RoomType.Lab)) _ h1
    refine ⟨h2, new1 ++ new2, ?_, ?_⟩
    · rw [hs2, hs1, List.append_assoc]
    · intro e he
      rcases List.mem_append.1 he with h | h
      · exact hn1 e h
      · exact hn2 e h

/-- `_schedule_single_type_course` preserves the invariant and only appends
entries of the current section. -/
theorem scheduleSingleTypeCourse_inv (course : Course) (sec : SectionRow)
    (sf : List FacultyMember) (sr : List Room) (st : SchedState)
    (hinv : GreedyInv sec.section_name st) :
    GreedyInv sec.section_name
      (scheduleSingleTypeCourse course sec sf sr false st).2 ∧
    ∃ new, (scheduleSingleTypeCourse course sec sf sr false st).2.schedule
        = st.schedule ++ new ∧
      ∀ e ∈ new, e.sectionName = sec.section_name := by
  unfold scheduleSingleTypeCourse
  dsimp only
  exact scheduleCourseComponent_inv course sec _ course.hours_per_week sf sr
    st hinv

/-- `_assign_course_to_section` preserves the invariant and only appends
entries of the current section. -/
theorem assignCourseToSection_inv (course : Course) (sec : SectionRow)
    (faculty : List FacultyMember) (rooms : List Room) (st : SchedState)
    (hinv : GreedyInv sec.section_name st) :
    GreedyInv sec.section_name
      (assignCourseToSection course sec faculty rooms false st).2 ∧
    ∃ new, (assignCourseToSection course sec faculty rooms false st).2.schedule
        = st.schedule ++ new ∧
      ∀ e ∈ new, e.sectionName = sec.section_name := by
  unfold assignCourseToSection
  dsimp only
  split_ifs
  all_goals
    first
      | exact ⟨hinv, [], by simp, by simp⟩
      | exact scheduleLectureLabCourse_inv course sec _ rooms st hinv
      | exact scheduleSingleTypeCourse_inv course sec _ _ st hinv

/-- A fold over courses whose step preserves the invariant and only appends
entries of the current section itself preserves the invariant and only appends
entries of the current section. -/
theorem foldPair_inv {β : Type} (sec_name : String)
    (f : (SchedState × β) → Course → (SchedState × β))
    (hf : ∀ a c, GreedyInv sec_name a.1 →
      GreedyInv sec_name (f a c).1 ∧
      ∃ new, (f a c).1.schedule = a.1.schedule ++ new ∧
        ∀ e ∈ new, e.sectionName = sec_name) :
    ∀ (cs : List Course) (a : SchedState × β),
      GreedyInv sec_name a.1 →
      GreedyInv sec_name (cs.foldl f a).1 ∧
      ∃ new, (cs.foldl f a).1.schedule = a.1.schedule ++ new ∧
        ∀ e ∈ new, e.sectionName = sec_name := by
  intro cs
  induction cs with
  | nil =>
      intro a h
      exact ⟨h, [], by simp, by simp⟩
  | cons c rest ih =>
      intro a h
      rw [List.foldl_cons]
      obtain ⟨h1, new1, hs1, hn1⟩ := hf a c h
      obtain ⟨h2, new2, hs2, hn2⟩ := ih (f a c) h1
      refine ⟨h2, new1 ++ new2, ?_, ?_⟩
      · rw [hs2, hs1, List.append_assoc]
      · intro e he
        rcases List.mem_append.1 he with hx | hx
        · exact hn1 e hx
        · exact hn2 e hx

/-- One section body of `_greedy_scheduling` preserves the invariant from the
reset state onward and only appends entries of that section. -/
theorem greedyScheduleSection_inv (courses : List Course)
    (faculty : List FacultyMember) (rooms : List Room) (sec : SectionRow)
    (acc : SchedState × List (String × String))
    (hinv : GreedyInv sec.section_name
      { acc.1 with
          section_schedule :=
            dictSet acc.1.section_schedule sec.section_name [] }) :
    GreedyInv sec.section_name
      (greedyScheduleSection courses faculty rooms false acc sec).1 ∧
    ∃ new,
      (greedyScheduleSection courses faculty rooms false acc sec).1.schedule
        = acc.1.schedule ++ new ∧
      ∀ e ∈ new, e.sectionName = sec.section_name := by
  unfold greedyScheduleSection
  dsimp only
  exact foldPair_inv sec.section_name
    (fun a course =>
      let res := assignCourseToSection course sec faculty rooms false a.1
      let warnings :=
        if !res.1 && !false then
          a.2 ++ [(course.course_code, sec.section_name)]
        else a.2
      (res.2, warnings))
    (fun a c h => assignCourseToSection_inv c sec faculty rooms a.1 h)
    (sectionCourses courses sec)
    ({ acc.1 with
        section_schedule :=
          dictSet acc.1.section_schedule sec.section_name [] }, acc.2)
    hinv

/-- Invariant threaded through the section loop: booked-ledger correspondence
for faculty and rooms, conflict freedom, and no scheduled entry naming a
yet-unprocessed section. -/
def SectionInv (secs : List SectionRow) (st : SchedState) : Prop :=
  (∀ e ∈ st.schedule,
    entrySession e ∈ ledgerSessions st.faculty_schedule e.faculty e.day) ∧
  (∀ e ∈ st.schedule,
    entrySession e ∈ ledgerSessions st.room_schedule e.room e.day) ∧
  st.schedule.Pairwise entryNoOverlap ∧
  (∀ e ∈ st.schedule, ∀ s ∈ secs, e.sectionName ≠ s.section_name)

/-- Resetting the section ledger for a fresh section name re-establishes the
per-section invariant: no existing entry carries the new section's name. -/
theorem sectionInv_reset (sec : SectionRow) (rest : List SectionRow)
    (st : SchedState) (h : SectionInv (sec :: rest) st) :
    GreedyInv sec.section_name
      { st with
          section_schedule :=
            dictSet st.section_schedule sec.section_name [] } := by
  obtain ⟨h1, h2, h3, h4⟩ := h
  refine ⟨h1, h2, ?_, h3⟩
  intro e he hname
  exact absurd hname (h4 e he sec (List.mem_cons_self _ _))

/-- The section fold keeps the section invariant, consuming the distinct
section names as it goes. -/
theorem sectionFold_inv (courses : List Course) (faculty : List FacultyMember)
    (rooms : List Room) :
    ∀ (secs : List SectionRow) (a : SchedState × List (String × String)),
      (secs.map SectionRow.section_name).Nodup →
      SectionInv secs a.1 →
      SectionInv []
        ((secs.foldl (greedyScheduleSection courses faculty rooms false)
          a).1) := by
  intro secs
  induction secs with
  | nil =>
      intro a _ h
      obtain ⟨h1, h2, h3, _⟩ := h
      exact ⟨h1, h2, h3, by simp⟩
  | cons sec rest ih =>
      intro a hnodup hsi
      rw [List.foldl_cons]
      rw [List.map_cons] at hnodup
      have hnd := List.nodup_cons.1 hnodup
      have hg := sectionInv_reset sec rest a.1 hsi
      obtain ⟨hge, new, hsched, hnames⟩ := greedyScheduleSection_inv courses
        faculty rooms sec a hg
      refine ih _ hnd.2 ?_
      obtain ⟨g1, g2, g3, g4⟩ := hge
      refine ⟨g1, g2, g4, ?_⟩
      intro e he s' hs' heq
      rw [hsched] at he
      rcases List.mem_append.1 he with hold | hnew
      · exact hsi.2.2.2 e hold s' (List.mem_cons_of_mem _ hs') heq
      · have hn : e.sectionName = sec.section_name := hnames e hnew
        rw [hn] at heq
        exact hnd.1 (by
          rw [heq]
          exact List.mem_map_of_mem SectionRow.section_name hs')

/-- C1 (amended): when the input section names are pairwise distinct, the
greedy scheduler with conflicts disallowed never produces two schedule entries
that share a room, a faculty member or a section and hold overlapping time
intervals on the same day. -/
theorem greedy_no_overlap (courses : List Course) (rooms : List Room)
    (faculty : List FacultyMember) (sections : List SectionRow) (counter : Nat)
    (hnodup : (sections.map SectionRow.section_name).Nodup) :
    (greedyScheduling courses rooms faculty sections false
        counter).state.schedule.Pairwise entryNoOverlap := by
  unfold greedyScheduling
  dsimp only
  have h := sectionFold_inv courses faculty rooms sections
    ({ schedule := []
       faculty_schedule := initLedger (faculty.map (fun f => f.faculty_name))
       room_schedule := initLedger (rooms.map (fun r => r.room_name))
       section_schedule := []
       day_pairing_counter := counter }, []) hnodup
    ⟨by simp, by simp, List.Pairwise.nil, by simp⟩
  exact h.2.2.1

/-- Witness for `greedy_no_overlap`: a concrete one-section run with distinct
section names yields a pairwise conflict-free schedule. -/
theorem greedy_no_overlap_witness :
    ([sectionS1].map SectionRow.section_name).Nodup ∧
    (greedyScheduling [lecCourse2h] [roomLectureA] [facultyF] [sectionS1]
        false 0).state.schedule.Pairwise entryNoOverlap :=
  ⟨by decide, greedy_no_overlap [lecCourse2h] [roomLectureA] [facultyF]
    [sectionS1] 0 (by decide)⟩

end Sched

